import Mathlib

/-!
Verification development for the PlaceCal SVG migrator.

The definitions below are a shallow embedding of the migrator's core engine
(`src/index.ts`): the viewBox resolver, the path-grammar tokenizer, the
parameter classifier and scaler, and the shape-to-path conversion pipeline.
JavaScript numbers are idealised as rationals; the value `NaN` (and, at the
`getViewBox` boundary, `undefined`, which coerces to `NaN` in arithmetic) is
modelled as `none` in the type `JsNum := Option ℚ`.  Non-finite values other
than `NaN` (the `±Infinity` produced by division by zero) are conflated with
`none`; no theorem below exercises that branch.  The strict-square viewBox
validation of the earlier engine variant (`src/unnamed/part_001`) is embedded
as `strictViewBoxCheck`.

Recursive scanners are written with an explicit fuel argument (always called
with `length + 1`, which is sufficient since every step consumes at least one
character) so that they reduce by `decide`/`rfl` on concrete inputs.
-/

set_option maxRecDepth 40000

namespace Migrator

/-- Target viewBox size (`TARGET_SIZE = 24` in `src/index.ts`). -/
def TARGET_SIZE : ℚ := 24

/-- Decimal places kept after scaling (`MAX_DECIMALS = 3`). -/
def MAX_DECIMALS : ℕ := 3

/-- Separator used when joining a command's parameters (`PARAM_JOINER = ','`). -/
def PARAM_JOINER : Char := ','

/-- A JavaScript number: `some q` is the finite value `q`; `none` stands for
`NaN` (and for `undefined`, which behaves as `NaN` in arithmetic). -/
abbrev JsNum : Type := Option ℚ

/-- JS addition: `NaN` propagates. -/
def jsAdd : JsNum → JsNum → JsNum
  | some a, some b => some (a + b)
  | _, _ => none

/-- JS subtraction: `NaN` propagates. -/
def jsSub : JsNum → JsNum → JsNum
  | some a, some b => some (a - b)
  | _, _ => none

/-- JS multiplication: `NaN` propagates. -/
def jsMul : JsNum → JsNum → JsNum
  | some a, some b => some (a * b)
  | _, _ => none

/-- JS division: `NaN` propagates.  Division by zero yields `±Infinity` in JS;
it is conflated with `none` here and is exercised by no theorem below. -/
def jsDiv : JsNum → JsNum → JsNum
  | some a, some b => if b = 0 then none else some (a / b)
  | _, _ => none

/-- JS strict equality `===` on numbers: `NaN === x` is always `false`. -/
def jsEq : JsNum → JsNum → Bool
  | some a, some b => a == b
  | _, _ => false

/-- Rounding to `MAX_DECIMALS = 3` decimal places, the idealisation of
`parseFloat(x.toFixed(3))`: `toFixed` picks the integer `n` minimising
`|n / 10^3 - x|`, preferring the larger `n` on ties, i.e. `⌊1000x + 1/2⌋`. -/
def roundFixed3 (q : ℚ) : ℚ := ((q * 10 ^ MAX_DECIMALS + 1/2).floor : ℚ) / 10 ^ MAX_DECIMALS

/-- `parseFloat(x.toFixed(3))` on a JS number: `NaN.toFixed(3) = "NaN"` and
`parseFloat("NaN") = NaN`, so `none` propagates. -/
def jsRound3 : JsNum → JsNum
  | some q => some (roundFixed3 q)
  | none => none

/-- The `ScaleAxis` type of `src/index.ts`: `'x' | 'y' | 'min' | false`. -/
inductive ScaleAxis where
  | x
  | y
  | minAxis
  | noScale
deriving DecidableEq, Repr

/-- The viewBox record returned by `getViewBox` in `src/index.ts`: four fields
produced by `parseFloat` with no validation, hence possibly `NaN`/`undefined`. -/
structure ViewBox where
  x : JsNum
  y : JsNum
  w : JsNum
  h : JsNum
deriving DecidableEq, Repr

/-- The destructuring `[shortest, longest] = [w, h].toSorted((a, b) => a - b)`:
with two elements the comparator runs once; a `NaN` result (either operand
`NaN`) counts as `0`, leaving the order unchanged. -/
def shortLong : JsNum → JsNum → JsNum × JsNum
  | some a, some b => if a - b > 0 then (some b, some a) else (some a, some b)
  | a, b => (a, b)

/-- The ternary `axis === 'x' ? viewBox.w : axis === 'y' ? viewBox.h : 0` of
`scaleParam`. -/
def axisLengthOf (axis : ScaleAxis) (vb : ViewBox) : JsNum :=
  match axis with
  | .x => vb.w
  | .y => vb.h
  | _ => some 0

/-- The ternary `axis === 'min' ? 0 : viewBox[axis]` of `scaleParam` (under
`!axis` having already returned, `axis` is `'x'` or `'y'` in the last arm). -/
def axisOffsetOf (axis : ScaleAxis) (vb : ViewBox) : JsNum :=
  match axis with
  | .minAxis => some 0
  | .x => vb.x
  | _ => vb.y

/-- The centering-mode scaling function `scaleParam` of `src/index.ts`
(lines 86-100), transliterated: proportional scale by the longest viewBox
edge, offset subtraction for `x`/`y` axes, and a centering shift on the axis
whose length differs from the longest edge. -/
def scaleParam (param : JsNum) (axis : ScaleAxis) (vb : ViewBox) : JsNum :=
  match axis with
  | .noScale => param
  | _ =>
    let sl := shortLong vb.w vb.h
    let shortest := sl.1
    let longest := sl.2
    let axisLength := axisLengthOf axis vb
    let axisOffset := axisOffsetOf axis vb
    let scaled := jsMul (jsDiv param longest) (some TARGET_SIZE)
    let offset := jsMul (jsDiv axisOffset longest) (some TARGET_SIZE)
    let shift : JsNum :=
      if jsEq axisLength (some 0) || jsEq axisLength longest then some 0
      else jsDiv (jsMul (jsDiv (jsSub longest shortest) longest) (some TARGET_SIZE)) (some 2)
    jsRound3 (jsAdd (jsSub scaled offset) shift)

/-- The strict-square validation of `getViewBox` in `src/unnamed/part_001`
(lines 95-98), applied to the four parsed viewBox numbers: tolerate a `w`,`h`
difference of at most 1% of the larger edge, reject non-zero offsets, and
normalise both edges to `max w h`. -/
inductive Err where
  | missingViewBox
  | nonSquare
  | offsetViewBox
  | noDAttrib
  | relativeStart
  | unknownCommand (c : Char)
  | paramCountMismatch (c : Char)
  | missingAttrib (name : String)
  | unhandledShape (tag : String)
  | invalidPolygon (n : Nat)
  | pointsUndefined
deriving DecidableEq, Repr

/-- Strict-square mode viewBox checks (`src/unnamed/part_001`, lines 95-98). -/
def strictViewBoxCheck (x y w h : ℚ) : Except Err (ℚ × ℚ × ℚ × ℚ) :=
  if |w - h| > max w h * (1/100) then .error .nonSquare
  else if x ≠ 0 ∨ y ≠ 0 then .error .offsetViewBox
  else .ok (x, y, max w h, max w h)

/-! ### Character classes of the scanning regexes -/

/-- Digit characters `[0-9]` (code points 48-57), the `\d` class of the
parameter regex. -/
def isDigitC (c : Char) : Bool := 48 ≤ c.toNat && c.toNat ≤ 57

/-- The command-letter class `[a-df-zA-Z]` of the path tokenizer regex in
`src/index.ts` line 135, by code point: `a`-`d` (97-100), `f`-`z` (102-122),
`A`-`Z` (65-90).  Lowercase `e` (101) is deliberately absent, being the
scientific-notation exponent marker. -/
def isCommandChar (c : Char) : Bool :=
  (97 ≤ c.toNat && c.toNat ≤ 100) || (102 ≤ c.toNat && c.toNat ≤ 122) ||
    (65 ≤ c.toNat && c.toNat ≤ 90)

/-- The parameter-run class `[0-9., e-]` of the path tokenizer regex. -/
def isParamChar (c : Char) : Bool :=
  isDigitC c || c == '.' || c == ',' || c == ' ' || c == 'e' || c == '-'

/-- ASCII letters `a-z`, `A-Z`, the command-letter set the specification
text describes. -/
def isAsciiLetter (c : Char) : Bool :=
  (97 ≤ c.toNat && c.toNat ≤ 122) || (65 ≤ c.toNat && c.toNat ≤ 90)

/-- Whitespace for the `split(/\s+/)` of `getViewBox`. -/
def isWsChar (c : Char) : Bool := c == ' ' || c == '\t' || c == '\n' || c == '\r'

/-! ### The parameter sub-tokenizer (`parseParams`, `src/index.ts` 102-109) -/

/-- Consume a single leading occurrence of `ch`: the matched prefix (empty or
`[ch]`) and the rest. -/
def splitChar (ch : Char) (l : List Char) : List Char × List Char :=
  match l with
  | c :: t => if c = ch then ([c], t) else ([], l)
  | [] => ([], l)

/-- The optional exponent tail `(?:e-?\d+)?` of the number regex: matched
characters and rest; the group participates only when at least one digit
follows. -/
def scanExp (l : List Char) : List Char × List Char :=
  match l with
  | c :: t =>
    if c = 'e' then
      let esign := splitChar '-' t
      let ed := esign.2.takeWhile isDigitC
      if ed = [] then ([], l) else (c :: (esign.1 ++ ed), esign.2.dropWhile isDigitC)
    else ([], l)
  | [] => ([], l)

/-- One greedy match of the number regex `-?\d*\.?\d*(?:e-?\d+)?` at the head
of the input, returning the matched token (possibly empty) and the rest. -/
def scanNum (l : List Char) : List Char × List Char :=
  let sign := splitChar '-' l
  let ip := sign.2.takeWhile isDigitC
  let l2 := sign.2.dropWhile isDigitC
  let dot := splitChar '.' l2
  let fp := dot.2.takeWhile isDigitC
  let l4 := dot.2.dropWhile isDigitC
  let ex := scanExp l4
  (sign.1 ++ ip ++ dot.1 ++ fp ++ ex.1, ex.2)

/-- The token scan of `parseParams`: repeated greedy number matches; an empty
match (discarded by the `filter`) advances one character, as `matchAll` does
with zero-length matches. -/
def scanParamsGo : Nat → List Char → List (List Char)
  | 0, _ => []
  | _ + 1, [] => []
  | fuel + 1, c :: rest =>
    let s := scanNum (c :: rest)
    if s.1 = [] then scanParamsGo fuel rest else s.1 :: scanParamsGo fuel s.2

/-- Numeric value of a big-endian digit string. -/
def digitsVal (l : List Char) : ℕ := l.foldl (fun acc c => acc * 10 + (c.toNat - 48)) 0

/-- The fraction step of `parseFloat`: on a leading `.`, the fraction digits
and the rest; otherwise nothing. -/
def splitFrac (l : List Char) : List Char × List Char :=
  match l with
  | c :: t => if c = '.' then (t.takeWhile isDigitC, t.dropWhile isDigitC) else ([], l)
  | [] => ([], l)

/-- The exponent factor of `parseFloat`: `10^d` for `e<digits>`, `10^-d` for
`e-<digits>` (a `+` sign is also accepted), and `1` when no well-formed
exponent follows. -/
def expoVal (l : List Char) : ℚ :=
  match l with
  | c :: t =>
    if c = 'e' then
      let eneg := splitChar '-' t
      let esign := if eneg.1 = [] then splitChar '+' t else eneg
      let ed := esign.2.takeWhile isDigitC
      if ed = [] then 1
      else if eneg.1 = [] then (10 : ℚ) ^ digitsVal ed else 1 / 10 ^ digitsVal ed
    else 1
  | [] => 1

/-- `parseFloat` on a token: optional sign, integer digits, optional fraction,
optional exponent; `NaN` (here `none`) when no mantissa digit is found. -/
def parseFloatJs (l : List Char) : JsNum :=
  let sign := splitChar '-' l
  let ip := sign.2.takeWhile isDigitC
  let l2 := sign.2.dropWhile isDigitC
  let fr := splitFrac l2
  if ip = [] ∧ fr.1 = [] then none
  else
    let mant : ℚ := (digitsVal ip : ℚ) + (digitsVal fr.1 : ℚ) / 10 ^ fr.1.length
    some ((if sign.1 = [] then mant else -mant) * expoVal fr.2)

/-- `parseParams` of `src/index.ts` (lines 102-109): tokenize with the number
regex, drop empty matches, and `parseFloat` each token. -/
def parseParams (l : List Char) : List JsNum :=
  (scanParamsGo (l.length + 1) l).map parseFloatJs

/-! ### Decimal printing (idealised JS number-to-string) -/

/-- The decimal digit character for `d` (meaningful for `d < 10`). -/
def digitChar (d : ℕ) : Char :=
  match d with
  | 0 => '0' | 1 => '1' | 2 => '2' | 3 => '3' | 4 => '4'
  | 5 => '5' | 6 => '6' | 7 => '7' | 8 => '8' | _ => '9'

/-- Little-endian base-10 digits by repeated division, with explicit fuel so
that concrete inputs reduce in the kernel; `natDigits` supplies enough fuel
and agrees with `Nat.digits 10` (`natDigits_eq` below). -/
def digitsGo : ℕ → ℕ → List ℕ
  | 0, _ => []
  | fuel + 1, n => if n = 0 then [] else n % 10 :: digitsGo fuel (n / 10)

/-- Little-endian base-10 digits of a natural number (`[]` for `0`). -/
def natDigits (n : ℕ) : List ℕ := digitsGo n n

/-- Big-endian decimal digit string of a natural number. -/
def natStr (n : ℕ) : List Char :=
  if n = 0 then ['0'] else ((natDigits n).reverse.map digitChar)

/-- `natStr n` left-padded with zeros to `width` characters. -/
def padDigits (n width : ℕ) : List Char :=
  List.replicate (width - (natStr n).length) '0' ++ natStr n

/-- Fraction part of the shortest decimal form: `fp` is the fractional
numerator over `10^e`; trailing zeros are stripped, and an empty fraction
prints nothing (so integers print with no decimal point, as in JS). -/
def fracChars (fp : ℕ) : ℕ → List Char
  | 0 => []
  | e + 1 =>
    if fp = 0 then []
    else if fp % 10 = 0 then fracChars (fp / 10) e
    else '.' :: padDigits fp (e + 1)

/-- Smallest exponent `e < 64` with `den ∣ 10^e` (`0` if none exists); every
number in the pipeline is a decimal fraction, so the bound is immaterial. -/
def decExp (den : ℕ) : ℕ :=
  match (List.range 64).find? (fun e => 10 ^ e % den == 0) with
  | some e => e
  | none => 0

/-- Plain (positional) decimal form of a decimal rational: sign, integer part,
and shortest fraction part. -/
def qCharsPlain (q : ℚ) : List Char :=
  let e := decExp q.den
  let n := q.num.natAbs * 10 ^ e / q.den
  (if q < 0 then ['-'] else []) ++ natStr (n / 10 ^ e) ++ fracChars (n % 10 ^ e) e

/-- Mantissa of the exponential form from the big-endian significand digits:
the first digit, then a decimal point and the remaining digits when there are
any (`1e+21`, `1.23e-7`). -/
def mantChars (bd : List Char) : List Char :=
  match bd with
  | [] => ['0']
  | d :: rest => d :: (if rest = [] then [] else '.' :: rest)

/-- Exponential decimal form `d[.ddd]e±K` of ECMAScript number-to-string: the
significand is the scaled integer `m = |q|·10^e` with its trailing zeros
dropped, and the decimal exponent is `n - 1` where `n = len - e` counts the
digits of the integer part (`len` the digit count of `m`). -/
def qCharsExp (q : ℚ) : List Char :=
  let e := decExp q.den
  let m := q.num.natAbs * 10 ^ e / q.den
  let len := (natDigits m).length
  let bd := ((natDigits m).dropWhile (fun d => d == 0)).reverse.map digitChar
  (if q < 0 then ['-'] else []) ++ mantChars bd ++
    'e' :: (if e + 21 < len then '+' :: natStr (len - e - 1) else '-' :: natStr (e - len + 1))

/-- ECMAScript number-to-string (radix 10) for the finite decimal values the
pipeline produces: writing the value as `s·10^(n-k)` with `s` the `k`-digit
significand, plain positional notation is used exactly when `-6 < n ≤ 21`
(equivalently `e ≤ len + 5 ∧ len ≤ e + 21`, with `n = len - e`), and
exponential notation (`String(1e21) = "1e+21"`, `String(1e-7) = "1e-7"`)
otherwise. -/
def qChars (q : ℚ) : List Char :=
  if q.num.natAbs * 10 ^ decExp q.den / q.den = 0 ∨
      (decExp q.den ≤ (natDigits (q.num.natAbs * 10 ^ decExp q.den / q.den)).length + 5 ∧
       (natDigits (q.num.natAbs * 10 ^ decExp q.den / q.den)).length ≤ decExp q.den + 21)
  then qCharsPlain q else qCharsExp q

/-- String conversion of a JS number as used by `Array.prototype.join`. -/
def jsNumChars : JsNum → List Char
  | some q => qChars q
  | none => ['N', 'a', 'N']

/-- `Array.prototype.join` with a one-character separator. -/
def joinSep (sep : Char) : List (List Char) → List Char
  | [] => []
  | [x] => x
  | x :: xs => x ++ sep :: joinSep sep xs

/-! ### Path command table and tokenizer -/

/-- `PATH_COMMAND_MAPPERS` of `src/index.ts` (lines 24-35). -/
def PATH_COMMAND_MAPPERS : List (Char × List ScaleAxis) :=
  [('a', [.x, .y, .noScale, .noScale, .noScale, .x, .y]),
   ('c', [.x, .y, .x, .y, .x, .y]),
   ('h', [.x]),
   ('l', [.x, .y]),
   ('m', [.x, .y]),
   ('t', [.x, .y]),
   ('q', [.x, .y, .x, .y]),
   ('s', [.x, .y, .x, .y]),
   ('v', [.y]),
   ('z', [])]

/-- `mapper[i % mapper.length]`: for an empty mapper, `i % 0` is `NaN` in JS
and `mapper[NaN]` is `undefined`, which is falsy and therefore behaves as the
`false` (no-scale) axis in `scaleParam`; `getD .noScale` covers both cases. -/
def mapperAt (mapper : List ScaleAxis) (i : ℕ) : ScaleAxis :=
  mapper.getD (i % mapper.length) .noScale

/-- The scanning pass of the path tokenizer regex
`(?<command>[a-df-zA-Z])(?<params>[0-9., e-]*)` (`src/index.ts` line 135):
characters that match neither class are skipped, a command letter starts a
match and greedily takes the following parameter run. -/
def tokenizeGo : ℕ → List Char → List (Char × List Char)
  | 0, _ => []
  | _ + 1, [] => []
  | fuel + 1, c :: rest =>
    if isCommandChar c then
      (c, rest.takeWhile isParamChar) :: tokenizeGo fuel (rest.dropWhile isParamChar)
    else tokenizeGo fuel rest

/-- All matches of the path tokenizer regex. -/
def tokenizePath (l : List Char) : List (Char × List Char) :=
  tokenizeGo (l.length + 1) l

/-- Remapping of one command occurrence (`src/index.ts` lines 142-155): parse
the parameter run, look the letter up case-folded in the command table, check
the parameter count against the template arity (skipped for arity zero), and
serialize the letter directly against its comma-joined scaled parameters. -/
def remapCommand (cmd : Char) (run : List Char) (vb : ViewBox) : Except Err String :=
  let params := parseParams run
  match PATH_COMMAND_MAPPERS.lookup cmd.toLower with
  | none => .error (.unknownCommand cmd)
  | some mapper =>
    if mapper.length ≠ 0 ∧ params.length % mapper.length ≠ 0 then
      .error (.paramCountMismatch cmd)
    else
      .ok (String.mk (cmd :: joinSep PARAM_JOINER
        (params.mapIdx fun i p => jsNumChars (scaleParam p (mapperAt mapper i) vb))))

/-- The command loop of the `path` branch (`src/index.ts` lines 136-156),
including the leading-relative-command guard
`c === 0 && remappedPath.length && command.toLocaleUpperCase() !== command`
exactly as written: it requires the accumulator to be non-empty at the first
command. -/
def processPathGo (vb : ViewBox) : List (Char × List Char) → ℕ → List String →
    Except Err (List String)
  | [], _, acc => .ok acc
  | (cmd, run) :: rest, c, acc =>
    if c = 0 ∧ acc ≠ [] ∧ cmd.toUpper ≠ cmd then .error .relativeStart
    else
      match remapCommand cmd run vb with
      | .error e => .error e
      | .ok s => processPathGo vb rest (c + 1) (acc ++ [s])

/-- Processing of one `path` element's `d` attribute string. -/
def processPath (d : String) (vb : ViewBox) : Except Err (List String) :=
  processPathGo vb (tokenizePath d.toList) 0 []

/-! ### Shape conversion pipeline -/

/-- A shape element as the pipeline sees it.  A `circle`'s `cx`/`cy`/`r` are
modelled post-`parseFloat`: `none` is an absent attribute and `some v` the
parsed JS number `v` (`getNumberAttrib` throws only on absence). -/
inductive ShapeElem where
  | path (d : Option String)
  | circle (cx cy r : Option JsNum)
  | rect
  | ellipse
  | line
  | polyline
  | polygon (points : Option String)
deriving DecidableEq

/-- `SHAPE_TAGS` of `src/index.ts` (line 19), in iteration order. -/
def SHAPE_TAGS : List String :=
  ["path", "circle", "rect", "ellipse", "line", "polyline", "polygon"]

/-- Tag name of a shape element. -/
def tagOf : ShapeElem → String
  | .path _ => "path"
  | .circle _ _ _ => "circle"
  | .rect => "rect"
  | .ellipse => "ellipse"
  | .line => "line"
  | .polyline => "polyline"
  | .polygon _ => "polygon"

/-- The `polygon` branch (`src/index.ts` lines 168-175): parse and scale the
points (x/y axis alternating by index parity), reject fewer than four or an
odd number of coordinates, and serialize `M<first point> L<rest> Z`. -/
def convertPolygon (pts : String) (vb : ViewBox) : Except Err (List String) :=
  let points := (parseParams pts.toList).mapIdx fun i p =>
    scaleParam p (if i % 2 = 1 then .y else .x) vb
  if points.length < 4 ∨ points.length % 2 ≠ 0 then .error (.invalidPolygon points.length)
  else
    .ok [String.mk ('M' :: joinSep PARAM_JOINER ((points.take 2).map jsNumChars)),
         String.mk ('L' :: joinSep PARAM_JOINER ((points.drop 2).map jsNumChars)),
         "Z"]

/-- The per-element dispatch of the processing loop (`src/index.ts`
lines 130-176): `path`, `circle` and `polygon` have conversion branches;
every other shape tag falls through to the unhandled-shape failure. -/
def convertShape (e : ShapeElem) (vb : ViewBox) : Except Err (List String) :=
  match e with
  | .path none => .error .noDAttrib
  | .path (some d) => processPath d vb
  | .circle none _ _ => .error (.missingAttrib "cx")
  | .circle (some _) none _ => .error (.missingAttrib "cy")
  | .circle (some _) (some _) none => .error (.missingAttrib "r")
  | .circle (some cx) (some cy) (some r) =>
    let cxs := scaleParam cx .x vb
    let cys := scaleParam cy .y vb
    let rs := scaleParam r .minAxis vb
    .ok [String.mk ('M' :: joinSep PARAM_JOINER ([cxs, jsSub cys rs].map jsNumChars)),
         String.mk ('A' :: joinSep PARAM_JOINER
           ([rs, rs, some 0, some 1, some 0, jsAdd cxs (some (1/1000)),
             jsSub cys rs].map jsNumChars)),
         "Z"]
  | .polygon none => .error .pointsUndefined
  | .polygon (some pts) => convertPolygon pts vb
  | .rect => .error (.unhandledShape "rect")
  | .ellipse => .error (.unhandledShape "ellipse")
  | .line => .error (.unhandledShape "line")
  | .polyline => .error (.unhandledShape "polyline")

/-- Sequential conversion of a list of shape elements: the first failure
aborts, successes are collected in order. -/
def processShapesGo : List ShapeElem → ViewBox → Except Err (List (List String))
  | [], _ => .ok []
  | e :: rest, vb =>
    match convertShape e vb with
    | .error err => .error err
    | .ok p =>
      match processShapesGo rest vb with
      | .error err => .error err
      | .ok ps => .ok (p :: ps)

/-- The document processing loop (`src/index.ts` lines 125-180): shape kinds
are visited in the fixed `SHAPE_TAGS` priority order, elements of each kind in
document order; the first failure aborts the file. -/
def processShapes (doc : List ShapeElem) (vb : ViewBox) : Except Err (List (List String)) :=
  processShapesGo ((SHAPE_TAGS.map fun t => doc.filter fun e => tagOf e == t).flatten) vb

/-! ### The viewBox resolver of `src/index.ts` (lines 77-84) -/

/-- `String.prototype.split(/\s+/)`: split on whitespace runs, keeping the
empty piece a leading (or trailing) run produces. -/
def splitWsGo : ℕ → List Char → List (List Char)
  | 0, _ => []
  | fuel + 1, l =>
    let piece := l.takeWhile fun c => !isWsChar c
    let rest := l.dropWhile fun c => !isWsChar c
    match rest with
    | [] => [piece]
    | _ :: t => piece :: splitWsGo fuel (t.dropWhile isWsChar)

/-- `split(/\s+/)` of a string's characters. -/
def splitWs (l : List Char) : List (List Char) := splitWsGo (l.length + 1) l

/-- `getViewBox` of `src/index.ts` (lines 77-84): reject only an absent or
empty attribute; otherwise split, `parseFloat` the pieces, and destructure the
first four with no validation (`undefined` fields of a short split are
conflated with `NaN`, which is how they behave downstream). -/
def getViewBox (attr : Option String) : Except Err ViewBox :=
  match attr with
  | none => .error .missingViewBox
  | some s =>
    if s = "" then .error .missingViewBox
    else
      let toks := splitWs s.toList
      let fld : ℕ → JsNum := fun i =>
        match toks[i]? with
        | some t => parseFloatJs t
        | none => none
      .ok ⟨fld 0, fld 1, fld 2, fld 3⟩

/-! ### Specification-side definitions used for comparison -/

/-- The specification's source-viewBox offset for an axis: the viewBox's `x`
or `y` for the two coordinate axes, zero for the min-axis. -/
def specAxisOffset (axis : ScaleAxis) (x y : ℚ) : ℚ :=
  match axis with
  | .x => x
  | .y => y
  | _ => 0

/-- The specification's centering shift (spec §4.1):
`((longest - shortest) / longest) * TARGET_SIZE / 2` applied exactly when the
parameter's axis is the shorter viewBox dimension, zero otherwise. -/
def specShift (axis : ScaleAxis) (w h : ℚ) : ℚ :=
  if (axis = .x ∧ w < h) ∨ (axis = .y ∧ h < w) then
    ((max w h - min w h) / max w h) * TARGET_SIZE / 2
  else 0

/-- The centering-mode scaling formula as the specification states it
(spec §4.1 and §4.4): `round((v/longest)*24 - (axisOffset/longest)*24 + shift, 3)`
with `longest = max w h`, zero offset and zero shift for the min-axis. -/
def specScaledCentering (v : ℚ) (axis : ScaleAxis) (x y w h : ℚ) : ℚ :=
  roundFixed3 ((v / max w h) * TARGET_SIZE -
    (specAxisOffset axis x y / max w h) * TARGET_SIZE + specShift axis w h)

/-- The serialization grammar shared by `remapCommand`, the `circle` and
`polygon` branches, and the per-shape join: each command is its letter written
directly against its comma-joined parameters, and commands are joined with
single spaces. -/
def serializeShape (cmds : List (Char × List ℚ)) : List Char :=
  joinSep ' ' (cmds.map fun p => p.1 :: joinSep PARAM_JOINER (p.2.map qChars))

/-- Re-tokenizing a serialized path with the same grammar: the command letters
with the parsed numeric values of their parameter runs. -/
def retokenize (l : List Char) : List (Char × List JsNum) :=
  (tokenizePath l).map fun t => (t.1, parseParams t.2)

/-- Shape of a serialized number: an optional minus sign, a non-empty integer
digit block, an optional fraction of a dot followed by a non-empty digit
block, and an optional negative exponent `e-` followed by a non-empty digit
block.  Every string `qChars` produces for a value of magnitude below `10^21`
has this shape, and the number regex matches it whole. -/
def IsNumeral (l : List Char) : Prop :=
  ∃ sgn ip fp ex, (sgn = [] ∨ sgn = ['-']) ∧ ip ≠ [] ∧ (∀ c ∈ ip, isDigitC c = true) ∧
    (fp = [] ∨ ∃ fd, fd ≠ [] ∧ (∀ c ∈ fd, isDigitC c = true) ∧ fp = '.' :: fd) ∧
    (ex = [] ∨ ∃ ed, ed ≠ [] ∧ (∀ c ∈ ed, isDigitC c = true) ∧ ex = 'e' :: '-' :: ed) ∧
    l = sgn ++ ip ++ fp ++ ex

/-! ## Helper lemmas -/

/-- `Rat.floor` agrees with the `Int.floor` of the order structure. -/
lemma ratFloor_eq_intFloor (q : ℚ) : (q.floor : ℤ) = ⌊q⌋ := by
  rw [Rat.floor_def', Rat.floor_def]

/-- `remapCommand` produces only unknown-command and parameter-count errors. -/
lemma remapCommand_ne_relativeStart (cmd : Char) (run : List Char) (vb : ViewBox) :
    remapCommand cmd run vb ≠ .error .relativeStart := by
  simp only [remapCommand]
  split
  · simp
  · split <;> simp

/-- The leading-relative-command guard of `processPathGo` demands a non-empty
accumulator at command index `0`, so it can never fire along a run that starts
with an empty accumulator. -/
lemma processPathGo_ne_relativeStart (vb : ViewBox) :
    ∀ (toks : List (Char × List Char)) (c : ℕ) (acc : List String),
      acc = [] ∨ c ≠ 0 → processPathGo vb toks c acc ≠ .error .relativeStart := by
  intro toks
  induction toks with
  | nil => intro c acc _ h; simp [processPathGo] at h
  | cons t rest ih =>
    intro c acc hca
    obtain ⟨cmd, run⟩ := t
    have hguard : ¬(c = 0 ∧ acc ≠ [] ∧ cmd.toUpper ≠ cmd) := by
      rcases hca with h | h
      · rintro ⟨_, hne, _⟩; exact hne h
      · rintro ⟨h0, _, _⟩; exact h h0
    simp only [processPathGo, if_neg hguard]
    cases hr : remapCommand cmd run vb with
    | error e =>
      intro hcontra
      refine remapCommand_ne_relativeStart cmd run vb (hr.trans ?_)
      injection hcontra with h
      rw [h]
    | ok s => exact ih (c + 1) (acc ++ [s]) (Or.inr (Nat.succ_ne_zero c))

/-- `mapIdx` with an index-independent function is `map`. -/
lemma mapIdx_const_map {α β : Type} (f : α → β) (l : List α) :
    (l.mapIdx fun _ a => f a) = l.map f := by
  simp only [List.mapIdx_eq_enum_map]
  rw [show (Function.uncurry fun _ (a : α) => f a) = f ∘ Prod.snd from rfl,
    ← List.map_map, List.enum_map_snd]

/-- If one element of the list always fails to convert, the sequential
conversion of the whole list fails. -/
lemma processShapesGo_error_of_mem (vb : ViewBox) :
    ∀ (l : List ShapeElem) (a : ShapeElem), a ∈ l → (∃ err, convertShape a vb = .error err) →
      ∃ err, processShapesGo l vb = .error err := by
  intro l
  induction l with
  | nil => intro a ha _; exact absurd ha (List.not_mem_nil a)
  | cons x t ih =>
    intro a ha hfa
    rcases List.mem_cons.mp ha with rfl | hat
    · obtain ⟨err, herr⟩ := hfa
      exact ⟨err, by simp [processShapesGo, herr]⟩
    · cases hx : convertShape x vb with
      | error e => exact ⟨e, by simp [processShapesGo, hx]⟩
      | ok p =>
        obtain ⟨err, herr⟩ := ih a hat hfa
        exact ⟨err, by simp [processShapesGo, hx, herr]⟩

/-- `toSorted` on two finite numbers produces the reordered pair. -/
lemma shortLong_some (w h : ℚ) :
    shortLong (some w) (some h) = (some (min w h), some (max w h)) := by
  simp only [shortLong]
  by_cases hwh : w - h > 0
  · rw [if_pos hwh]
    have hh : h ≤ w := by linarith [sub_pos.mp hwh]
    rw [min_eq_right hh, max_eq_left hh]
  · rw [if_neg hwh]
    have hh : w ≤ h := by
      by_contra hcon
      exact hwh (sub_pos.mpr (lt_of_not_le hcon))
    rw [min_eq_left hh, max_eq_right hh]

lemma jsMul_some (a b : ℚ) : jsMul (some a) (some b) = some (a * b) := rfl

lemma jsSub_some (a b : ℚ) : jsSub (some a) (some b) = some (a - b) := rfl

lemma jsAdd_some (a b : ℚ) : jsAdd (some a) (some b) = some (a + b) := rfl

lemma jsRound3_some (a : ℚ) : jsRound3 (some a) = some (roundFixed3 a) := rfl

lemma jsDiv_some (a b : ℚ) (h : b ≠ 0) : jsDiv (some a) (some b) = some (a / b) := by
  simp [jsDiv, h]

/-- The centering-mode scaler agrees with the specification's formula on every
finite viewBox with positive dimensions, for every axis-tagged parameter. -/
lemma scaleParam_centering_eq (v x y w h : ℚ) (axis : ScaleAxis) (hax : axis ≠ .noScale)
    (hw : 0 < w) (hh : 0 < h) :
    scaleParam (some v) axis ⟨some x, some y, some w, some h⟩ =
      some (specScaledCentering v axis x y w h) := by
  have hm : (max w h) ≠ 0 := ne_of_gt (lt_of_lt_of_le hw (le_max_left w h))
  cases axis with
  | noScale => exact absurd rfl hax
  | x =>
    simp only [scaleParam, axisLengthOf, axisOffsetOf]
    rw [shortLong_some]
    simp only [jsEq]
    by_cases hcs : w = w ⊔ h
    · have hb : (w == 0 || w == w ⊔ h) = true :=
        Bool.or_eq_true_iff.mpr (Or.inr (beq_iff_eq.mpr hcs))
      have hsh : specShift .x w h = 0 := by
        rw [specShift, if_neg]
        rintro (⟨_, hlt⟩ | ⟨hxy, _⟩)
        · exact absurd hlt (not_lt.mpr (sup_eq_left.mp hcs.symm))
        · exact ScaleAxis.noConfusion hxy
      rw [if_pos hb, jsDiv_some v _ hm, jsDiv_some x _ hm]
      simp only [jsMul_some, jsSub_some, jsAdd_some, jsRound3_some]
      rw [specScaledCentering, specAxisOffset, hsh]
    · have hb : ¬((w == 0 || w == w ⊔ h) = true) := by
        intro hb
        rcases Bool.or_eq_true_iff.mp hb with h0 | h1
        · exact hw.ne' (beq_iff_eq.mp h0)
        · exact hcs (beq_iff_eq.mp h1)
      have hwlt : w < h := by
        rcases lt_or_le w h with h' | h'
        · exact h'
        · exact absurd (sup_eq_left.mpr h').symm hcs
      have hsh : specShift .x w h = ((max w h - min w h) / max w h) * TARGET_SIZE / 2 := by
        rw [specShift, if_pos (Or.inl ⟨rfl, hwlt⟩)]
      rw [if_neg hb, jsDiv_some v _ hm, jsDiv_some x _ hm, jsSub_some, jsDiv_some _ _ hm]
      simp only [jsMul_some]
      rw [jsDiv_some _ _ (show (2:ℚ) ≠ 0 by norm_num)]
      simp only [jsSub_some, jsAdd_some, jsRound3_some]
      rw [specScaledCentering, specAxisOffset, hsh]
  | y =>
    simp only [scaleParam, axisLengthOf, axisOffsetOf]
    rw [shortLong_some]
    simp only [jsEq]
    by_cases hcs : h = w ⊔ h
    · have hb : (h == 0 || h == w ⊔ h) = true :=
        Bool.or_eq_true_iff.mpr (Or.inr (beq_iff_eq.mpr hcs))
      have hsh : specShift .y w h = 0 := by
        rw [specShift, if_neg]
        rintro (⟨hxy, _⟩ | ⟨_, hlt⟩)
        · exact ScaleAxis.noConfusion hxy
        · exact absurd hlt (not_lt.mpr (sup_eq_right.mp hcs.symm))
      rw [if_pos hb, jsDiv_some v _ hm, jsDiv_some y _ hm]
      simp only [jsMul_some, jsSub_some, jsAdd_some, jsRound3_some]
      rw [specScaledCentering, specAxisOffset, hsh]
    · have hb : ¬((h == 0 || h == w ⊔ h) = true) := by
        intro hb
        rcases Bool.or_eq_true_iff.mp hb with h0 | h1
        · exact hh.ne' (beq_iff_eq.mp h0)
        · exact hcs (beq_iff_eq.mp h1)
      have hwlt : h < w := by
        rcases lt_or_le h w with h' | h'
        · exact h'
        · exact absurd (sup_eq_right.mpr h').symm hcs
      have hsh : specShift .y w h = ((max w h - min w h) / max w h) * TARGET_SIZE / 2 := by
        rw [specShift, if_pos (Or.inr ⟨rfl, hwlt⟩)]
      rw [if_neg hb, jsDiv_some v _ hm, jsDiv_some y _ hm, jsSub_some, jsDiv_some _ _ hm]
      simp only [jsMul_some]
      rw [jsDiv_some _ _ (show (2:ℚ) ≠ 0 by norm_num)]
      simp only [jsSub_some, jsAdd_some, jsRound3_some]
      rw [specScaledCentering, specAxisOffset, hsh]
  | minAxis =>
    simp only [scaleParam, axisLengthOf, axisOffsetOf]
    rw [shortLong_some]
    simp only [jsEq]
    have hb : ((0:ℚ) == 0 || (0:ℚ) == w ⊔ h) = true :=
      Bool.or_eq_true_iff.mpr (Or.inl (beq_iff_eq.mpr rfl))
    have hsh : specShift .minAxis w h = 0 := by
      simp [specShift]
    have hoff : specAxisOffset .minAxis x y = 0 := rfl
    rw [if_pos hb, jsDiv_some v _ hm, jsDiv_some 0 _ hm]
    simp only [jsMul_some, jsSub_some, jsAdd_some, jsRound3_some]
    rw [specScaledCentering, hoff, hsh]

/-- The rounding step moves a value by at most half of the last kept decimal. -/
lemma roundFixed3_close (q : ℚ) : |roundFixed3 q - q| ≤ 1 / 2000 := by
  unfold roundFixed3 MAX_DECIMALS
  rw [ratFloor_eq_intFloor]
  have h1 : (⌊q * 10 ^ 3 + 1/2⌋ : ℚ) ≤ q * 10 ^ 3 + 1/2 := Int.floor_le _
  have h2 : q * 10 ^ 3 + 1/2 - 1 < (⌊q * 10 ^ 3 + 1/2⌋ : ℚ) := Int.sub_one_lt_floor _
  rw [abs_le]
  constructor <;> [nlinarith; nlinarith]

/-! ## The claims -/

/-- Claim C1.  The specification demands a relative-start error for every path
whose first parsed command letter is lowercase.  The code never raises it: the
guard `c === 0 && remappedPath.length && …` requires the per-element
accumulator to be non-empty at the first command, but it is always freshly
empty there, so the guard is unsatisfiable and a path starting with a relative
command (here `m10 10 l5 5`) is remapped without error.  This contradicts the
source's own comment ("we throw if a path starts with a relative command"), so
the claim is recorded as a code bug; this theorem documents the actual
behaviour. -/
theorem claim_C1 :
    (∀ (d : String) (vb : ViewBox), processPath d vb ≠ .error .relativeStart) ∧
    processPath "m10 10 l5 5" ⟨some 0, some 0, some 24, some 24⟩ = .ok ["m10,10", "l5,5"] :=
  ⟨fun d vb => processPathGo_ne_relativeStart vb (tokenizePath d.toList) 0 [] (Or.inl rfl),
   by with_unfolding_all rfl⟩

/-- Witness for C1 at a concrete input. -/
theorem claim_C1_witness :
    processPath "m10 10 l5 5" ⟨some 0, some 0, some 24, some 24⟩ ≠ .error .relativeStart :=
  claim_C1.1 "m10 10 l5 5" ⟨some 0, some 0, some 24, some 24⟩

/-- Counterexample to claim C3 as stated: lowercase `e` in command position is
not a command letter of the tokenizer class `[a-df-zA-Z]`, so `e10,10` yields
no command tokens at all (and no unknown-command error), while the claim says
every ASCII letter in command position is tokenized as a command and `e`,
having no template, would then have to raise the unknown-command error. -/
theorem claim_C3_counterexample :
    tokenizePath ("e10,10".toList) = [] ∧
    processPath "e10,10" ⟨some 0, some 0, some 24, some 24⟩ = .ok [] :=
  ⟨by with_unfolding_all rfl, by with_unfolding_all rfl⟩

/-- Claim C3, amended: the tokenizer's command class is exactly the ASCII
letters minus lowercase `e` (code point 101, the exponent marker); every
tokenized command letter whose case-folded form has no template in the command
table makes remapping fail with the unknown-command error, and in particular
`b10,10` fails with the unknown-command error for every viewBox. -/
theorem claim_C3 :
    (∀ c : Char, isCommandChar c = true ↔ (isAsciiLetter c = true ∧ c.toNat ≠ 101)) ∧
    (∀ (cmd : Char) (run : List Char) (vb : ViewBox),
      PATH_COMMAND_MAPPERS.lookup cmd.toLower = none →
      remapCommand cmd run vb = .error (.unknownCommand cmd)) ∧
    (∀ vb : ViewBox, processPath "b10,10" vb = .error (.unknownCommand 'b')) := by
  refine ⟨?_, ?_, ?_⟩
  · intro c
    simp only [isCommandChar, isAsciiLetter, Bool.or_eq_true, Bool.and_eq_true,
      decide_eq_true_eq]
    omega
  · intro cmd run vb h
    simp only [remapCommand, h]
  · intro vb
    with_unfolding_all rfl

/-- Witness for C3 at a concrete input. -/
theorem claim_C3_witness :
    remapCommand 'b' ['1'] ⟨some 0, some 0, some 24, some 24⟩ =
      .error (.unknownCommand 'b') :=
  claim_C3.2.1 'b' ['1'] ⟨some 0, some 0, some 24, some 24⟩ (by with_unfolding_all rfl)

/-- Counterexample to claim C4 as stated: the parameter count `2` is not a
non-negative multiple of the zero arity of `z`, so the claim requires a
parameter-count-mismatch error for `z1,2`, but the code skips the check for
zero-arity templates entirely and serializes the parameters through unscaled. -/
theorem claim_C4_counterexample :
    remapCommand 'z' ['1', ',', '2'] ⟨some 0, some 0, some 24, some 24⟩ = .ok "z1,2" ∧
    ¬∃ k : ℕ, 2 = 0 * k :=
  ⟨by with_unfolding_all rfl, by simp⟩

/-- Claim C4, amended: a command occurrence fails with the
parameter-count-mismatch error exactly when its template arity is non-zero and
its parameter count is not a multiple of that arity; a zero-arity template
(`z`/`Z`) skips the check entirely, accepting any parameters and passing them
through unscaled. -/
theorem claim_C4 :
    (∀ (cmd : Char) (run : List Char) (vb : ViewBox) (mapper : List ScaleAxis),
      PATH_COMMAND_MAPPERS.lookup cmd.toLower = some mapper →
      (remapCommand cmd run vb = .error (.paramCountMismatch cmd) ↔
        (mapper.length ≠ 0 ∧ (parseParams run).length % mapper.length ≠ 0))) ∧
    (∀ (run : List Char) (vb : ViewBox),
      remapCommand 'z' run vb =
        .ok (String.mk ('z' :: joinSep PARAM_JOINER ((parseParams run).map jsNumChars)))) := by
  constructor
  · intro cmd run vb mapper h
    simp only [remapCommand, h]
    by_cases hc : mapper.length ≠ 0 ∧ (parseParams run).length % mapper.length ≠ 0
    · simp [hc]
    · simp [hc]
  · intro run vb
    have hz : PATH_COMMAND_MAPPERS.lookup 'z'.toLower = some [] := by with_unfolding_all rfl
    simp only [remapCommand, hz]
    rw [if_neg (by simp)]
    rw [show (fun (i : ℕ) (p : JsNum) => jsNumChars (scaleParam p (mapperAt [] i) vb)) =
      fun _ p => jsNumChars p from rfl, mapIdx_const_map]

/-- Witness for C4 at a concrete input: `l` has arity 2 and three parameters. -/
theorem claim_C4_witness :
    remapCommand 'l' ['1', ',', '2', ',', '3'] ⟨some 0, some 0, some 24, some 24⟩ =
      .error (.paramCountMismatch 'l') :=
  (claim_C4.1 'l' ['1', ',', '2', ',', '3'] ⟨some 0, some 0, some 24, some 24⟩
      [.x, .y] (by with_unfolding_all rfl)).mpr
    (by with_unfolding_all decide)

/-- Claim C5: a circle with numeric attributes converts to exactly the three
commands `M(cx', cy'-r')`, `A(r', r', 0, 1, 0, cx'+0.001, cy'-r')`, `Z`, where
`cx'`/`cy'` are the x/y-axis scalings of the centre and `r'` the min-axis
scaling of the radius; for `cx=12, cy=12, r=6` in viewBox `(0,0,24,24)` the
serialized shape is exactly `M12,6 A6,6,0,1,0,12.001,6 Z`. -/
theorem claim_C5 :
    (∀ (cx cy r : ℚ) (vb : ViewBox),
      convertShape (.circle (some (some cx)) (some (some cy)) (some (some r))) vb =
        .ok [String.mk ('M' :: joinSep PARAM_JOINER
               ([scaleParam (some cx) .x vb,
                 jsSub (scaleParam (some cy) .y vb) (scaleParam (some r) .minAxis vb)].map
                   jsNumChars)),
             String.mk ('A' :: joinSep PARAM_JOINER
               ([scaleParam (some r) .minAxis vb, scaleParam (some r) .minAxis vb,
                 some 0, some 1, some 0,
                 jsAdd (scaleParam (some cx) .x vb) (some (1/1000)),
                 jsSub (scaleParam (some cy) .y vb) (scaleParam (some r) .minAxis vb)].map
                   jsNumChars)),
             "Z"]) ∧
    convertShape (.circle (some (some 12)) (some (some 12)) (some (some 6)))
        ⟨some 0, some 0, some 24, some 24⟩ =
      .ok ["M12,6", "A6,6,0,1,0,12.001,6", "Z"] ∧
    (convertShape (.circle (some (some 12)) (some (some 12)) (some (some 6)))
        ⟨some 0, some 0, some 24, some 24⟩).map (String.intercalate " ") =
      .ok "M12,6 A6,6,0,1,0,12.001,6 Z" :=
  ⟨fun _ _ _ _ => rfl, by with_unfolding_all rfl, by with_unfolding_all rfl⟩

/-- Claim C6: polygon conversion fails with the invalid-polygon error exactly
when the count of numbers parsed from the `points` attribute is below four or
odd; otherwise it serializes `M` with the first scaled pair, `L` with the
remaining scaled coordinates, and `Z`; the concrete square polygon in viewBox
`(0,0,24,24)` serializes to exactly `M0,0 L24,0,24,24,0,24 Z`. -/
theorem claim_C6 :
    (∀ (pts : String) (vb : ViewBox),
      ((∃ n, convertPolygon pts vb = .error (.invalidPolygon n)) ↔
        ((parseParams pts.toList).length < 4 ∨ (parseParams pts.toList).length % 2 = 1))) ∧
    (∀ (pts : String) (vb : ViewBox),
      4 ≤ (parseParams pts.toList).length → (parseParams pts.toList).length % 2 = 0 →
      convertPolygon pts vb =
        .ok [String.mk ('M' :: joinSep PARAM_JOINER
               ((((parseParams pts.toList).mapIdx fun i p =>
                   scaleParam p (if i % 2 = 1 then .y else .x) vb).take 2).map jsNumChars)),
             String.mk ('L' :: joinSep PARAM_JOINER
               ((((parseParams pts.toList).mapIdx fun i p =>
                   scaleParam p (if i % 2 = 1 then .y else .x) vb).drop 2).map jsNumChars)),
             "Z"]) ∧
    convertPolygon "0,0 24,0 24,24 0,24" ⟨some 0, some 0, some 24, some 24⟩ =
      .ok ["M0,0", "L24,0,24,24,0,24", "Z"] ∧
    (convertPolygon "0,0 24,0 24,24 0,24" ⟨some 0, some 0, some 24, some 24⟩).map
        (String.intercalate " ") =
      .ok "M0,0 L24,0,24,24,0,24 Z" := by
  refine ⟨?_, ?_, by with_unfolding_all rfl, by with_unfolding_all rfl⟩
  · intro pts vb
    simp only [convertPolygon, List.length_mapIdx]
    by_cases hc : (parseParams pts.toList).length < 4 ∨ (parseParams pts.toList).length % 2 ≠ 0
    · rw [if_pos hc]
      simp only [Except.error.injEq, Err.invalidPolygon.injEq, exists_eq]
      constructor
      · intro _; omega
      · intro _; exact ⟨_, rfl⟩
    · rw [if_neg hc]
      simp only [reduceCtorEq, exists_false, false_iff]
      omega
  · intro pts vb h4 h2
    simp only [convertPolygon, List.length_mapIdx]
    rw [if_neg (by omega)]

/-- Witness for C6 at a concrete input. -/
theorem claim_C6_witness :
    convertPolygon "0,0 24,0 24,24 0,24" ⟨some 0, some 0, some 24, some 24⟩ =
      .ok [String.mk ('M' :: joinSep PARAM_JOINER
             ((((parseParams ("0,0 24,0 24,24 0,24".toList)).mapIdx fun i p =>
                 scaleParam p (if i % 2 = 1 then .y else .x)
                   ⟨some 0, some 0, some 24, some 24⟩).take 2).map jsNumChars)),
           String.mk ('L' :: joinSep PARAM_JOINER
             ((((parseParams ("0,0 24,0 24,24 0,24".toList)).mapIdx fun i p =>
                 scaleParam p (if i % 2 = 1 then .y else .x)
                   ⟨some 0, some 0, some 24, some 24⟩).drop 2).map jsNumChars)),
           "Z"] :=
  claim_C6.2.1 "0,0 24,0 24,24 0,24" ⟨some 0, some 0, some 24, some 24⟩
    (by with_unfolding_all decide) (by with_unfolding_all decide)

/-- Claim C2: in centering mode every axis-tagged value is scaled by the
specification's formula (proportional scale by the longest edge, offset
normalisation, centering shift exactly on the shorter axis, min-axis with zero
offset and shift); for viewBox `(0,0,10,20)` every x-axis value is shifted by
the positive amount `6`; and strict mode rejects that viewBox as non-square. -/
theorem claim_C2 :
    (∀ (v x y w h : ℚ) (axis : ScaleAxis), axis ≠ .noScale → 0 < w → 0 < h →
      scaleParam (some v) axis ⟨some x, some y, some w, some h⟩ =
        some (specScaledCentering v axis x y w h)) ∧
    (∃ shift : ℚ, 0 < shift ∧ ∀ v : ℚ,
      scaleParam (some v) .x ⟨some 0, some 0, some 10, some 20⟩ =
        some (roundFixed3 (v / 20 * TARGET_SIZE + shift))) ∧
    strictViewBoxCheck 0 0 10 20 = .error .nonSquare := by
  refine ⟨fun v x y w h axis hax hw hh => scaleParam_centering_eq v x y w h axis hax hw hh,
    ⟨6, by norm_num, fun v => ?_⟩, by with_unfolding_all rfl⟩
  rw [scaleParam_centering_eq v 0 0 10 20 .x (by simp) (by norm_num) (by norm_num)]
  have h1 : specScaledCentering v .x 0 0 10 20 = roundFixed3 (v / 20 * TARGET_SIZE + 6) := by
    rw [specScaledCentering, specAxisOffset, specShift, if_pos (Or.inl ⟨rfl, by norm_num⟩)]
    congr 1
    rw [show max (10:ℚ) 20 = 20 by norm_num, show min (10:ℚ) 20 = 10 by norm_num,
      show TARGET_SIZE = 24 from rfl]
    ring
  rw [h1]

/-- Witness for C2 at a concrete input. -/
theorem claim_C2_witness :
    scaleParam (some 5) .x ⟨some 0, some 0, some 10, some 20⟩ =
      some (specScaledCentering 5 .x 0 0 10 20) ∧
    specScaledCentering 5 .x 0 0 10 20 = 12 :=
  ⟨claim_C2.1 5 0 0 10 20 .x (by decide) (by decide) (by decide),
   by with_unfolding_all rfl⟩

/-- Counterexample to claim C7 as stated: for the square viewBox
`(0,0,1000,1000)` and the value `2/5`, scaling gives `0.01` and the inverse
scale `0.01 * 1000 / 24 = 5/12` misses `2/5` by `1/60`, far more than the
claimed `10^-3` bound. -/
theorem claim_C7_counterexample :
    scaleParam (some (2/5)) .x ⟨some 0, some 0, some 1000, some 1000⟩ = some (1/100) ∧
    ¬(|(1:ℚ)/100 * 1000 / TARGET_SIZE - 2/5| ≤ 1 / 10 ^ MAX_DECIMALS) :=
  ⟨by with_unfolding_all rfl, by with_unfolding_all decide⟩

/-- Claim C7, amended: on a square viewBox `(0,0,w,w)` the scaler computes
`round((v/w)*24, 3)`, and inverting the scale recovers `v` within
`(10^-3 / 2) * (w / 24)` absolute error — the rounding step's half-unit error
magnified by the inverse scale factor.  (The claimed uniform `10^-3` bound
holds only for `w ≤ 48`.) -/
theorem claim_C7 : ∀ (w v : ℚ), 0 < w →
    scaleParam (some v) .x ⟨some 0, some 0, some w, some w⟩ =
      some (roundFixed3 (v / w * TARGET_SIZE)) ∧
    |roundFixed3 (v / w * TARGET_SIZE) * w / TARGET_SIZE - v| ≤
      w / (2 * TARGET_SIZE * 10 ^ MAX_DECIMALS) := by
  intro w v hw
  have hT : TARGET_SIZE = 24 := rfl
  constructor
  · rw [scaleParam_centering_eq v 0 0 w w .x (by simp) hw hw]
    congr 1
    rw [specScaledCentering, specAxisOffset, specShift, if_neg (by
      rintro (⟨_, hlt⟩ | ⟨hxy, _⟩)
      · exact lt_irrefl w hlt
      · exact ScaleAxis.noConfusion hxy)]
    congr 1
    rw [max_self]
    ring
  · have hb := roundFixed3_close (v / w * TARGET_SIZE)
    have key : roundFixed3 (v / w * TARGET_SIZE) * w / TARGET_SIZE - v =
        (roundFixed3 (v / w * TARGET_SIZE) - v / w * TARGET_SIZE) * (w / TARGET_SIZE) := by
      rw [hT]
      field_simp
      ring
    rw [key, abs_mul, abs_of_pos (show (0:ℚ) < w / TARGET_SIZE by rw [hT]; positivity)]
    calc |roundFixed3 (v / w * TARGET_SIZE) - v / w * TARGET_SIZE| * (w / TARGET_SIZE)
        ≤ 1 / 2000 * (w / TARGET_SIZE) := by
          apply mul_le_mul_of_nonneg_right hb
          rw [hT]
          positivity
      _ = w / (2 * TARGET_SIZE * 10 ^ MAX_DECIMALS) := by
          rw [hT, MAX_DECIMALS]
          ring

/-- Witness for C7 at a concrete input. -/
theorem claim_C7_witness :
    scaleParam (some 1) .x ⟨some 0, some 0, some 24, some 24⟩ =
      some (roundFixed3 (1 / 24 * TARGET_SIZE)) ∧
    |roundFixed3 ((1:ℚ) / 24 * TARGET_SIZE) * 24 / TARGET_SIZE - 1| ≤
      24 / (2 * TARGET_SIZE * 10 ^ MAX_DECIMALS) :=
  claim_C7 24 1 (by decide)

/-- Claim C9: `polyline` is a recognised shape tag but has no conversion
branch, so converting a polyline element always fails with the unhandled-shape
error, and processing any document containing a polyline element always
fails. -/
theorem claim_C9 :
    (∀ vb : ViewBox, convertShape .polyline vb = .error (.unhandledShape "polyline")) ∧
    (∀ (doc : List ShapeElem) (vb : ViewBox), (∃ e ∈ doc, tagOf e = "polyline") →
      ∃ err, processShapes doc vb = .error err) := by
  constructor
  · intro vb; rfl
  · intro doc vb ⟨e, he, ht⟩
    have hpoly : e = .polyline := by
      cases e <;> simp [tagOf] at ht ⊢
    subst hpoly
    refine processShapesGo_error_of_mem vb _ .polyline ?_ ⟨.unhandledShape "polyline", rfl⟩
    refine List.mem_flatten.mpr ⟨doc.filter fun x => tagOf x == "polyline", ?_, ?_⟩
    · exact List.mem_map.mpr ⟨"polyline", by decide, rfl⟩
    · exact List.mem_filter.mpr ⟨he, by simp [tagOf]⟩

/-- Witness for C9 at a concrete input. -/
theorem claim_C9_witness :
    ∃ err, processShapes [ShapeElem.polyline] ⟨some 0, some 0, some 24, some 24⟩ =
      .error err :=
  claim_C9.2 [ShapeElem.polyline] ⟨some 0, some 0, some 24, some 24⟩
    ⟨.polyline, by simp, rfl⟩

/-- Claim C10: the centering-mode viewBox resolver errors exactly when the
attribute is absent or the empty string; any other string yields a record with
no validation — a short split leaves trailing fields `undefined`, non-numeric
tokens parse to `NaN`, and negative dimensions pass through — and a fully
`NaN`/`undefined` viewBox propagates `NaN` into every axis-scaled output
value. -/
theorem claim_C10 :
    (∀ attr : Option String,
      (∃ e, getViewBox attr = .error e) ↔ (attr = none ∨ attr = some "")) ∧
    getViewBox (some "0 0 10") = .ok ⟨some 0, some 0, some 10, none⟩ ∧
    getViewBox (some "garbage") = .ok ⟨none, none, none, none⟩ ∧
    getViewBox (some "0 0 -10 20") = .ok ⟨some 0, some 0, some (-10), some 20⟩ ∧
    (∀ v : ℚ,
      scaleParam (some v) .x ⟨none, none, none, none⟩ = none ∧
      scaleParam (some v) .y ⟨none, none, none, none⟩ = none ∧
      scaleParam (some v) .minAxis ⟨none, none, none, none⟩ = none) := by
  refine ⟨?_, by with_unfolding_all rfl, by with_unfolding_all rfl,
    by with_unfolding_all rfl, fun v => ⟨rfl, rfl, rfl⟩⟩
  intro attr
  cases attr with
  | none => simp [getViewBox]
  | some s =>
    by_cases hs : s = ""
    · subst hs; simp [getViewBox]
    · simp [getViewBox, hs]


/-! ## Serialization round-trip machinery (claim C8) -/

lemma takeWhile_all_append {α : Type} (p : α → Bool) (l1 l2 : List α) (h : ∀ c ∈ l1, p c) :
    (l1 ++ l2).takeWhile p = l1 ++ l2.takeWhile p := by
  induction l1 with
  | nil => simp
  | cons a t ih =>
    simp only [List.cons_append, List.takeWhile_cons, h a (by simp), if_true]
    rw [ih (fun c hc => h c (by simp [hc]))]

lemma dropWhile_all_append {α : Type} (p : α → Bool) (l1 l2 : List α) (h : ∀ c ∈ l1, p c) :
    (l1 ++ l2).dropWhile p = l2.dropWhile p := by
  induction l1 with
  | nil => simp
  | cons a t ih =>
    simp only [List.cons_append, List.dropWhile_cons, h a (by simp), if_true]
    exact ih (fun c hc => h c (by simp [hc]))

lemma takeWhile_all {α : Type} (p : α → Bool) (l : List α) (h : ∀ c ∈ l, p c) :
    l.takeWhile p = l := by
  have := takeWhile_all_append p l [] h
  simpa using this

lemma dropWhile_all {α : Type} (p : α → Bool) (l : List α) (h : ∀ c ∈ l, p c) :
    l.dropWhile p = [] := by
  have := dropWhile_all_append p l [] h
  simpa using this

lemma digitChar_isDigit (d : ℕ) (h : d < 10) : isDigitC (digitChar d) = true := by
  interval_cases d <;> rfl

lemma digitChar_val (d : ℕ) (h : d < 10) : (digitChar d).toNat - 48 = d := by
  interval_cases d <;> rfl

lemma isDigitC_ne_dash {c : Char} (h : isDigitC c = true) : ¬(c = '-') := by
  intro hc
  subst hc
  exact absurd h (by decide)

lemma isDigitC_ne_dot {c : Char} (h : isDigitC c = true) : ¬(c = '.') := by
  intro hc
  subst hc
  exact absurd h (by decide)

lemma digitsGo_eq : ∀ (fuel n : ℕ), n ≤ fuel → digitsGo fuel n = Nat.digits 10 n := by
  intro fuel
  induction fuel with
  | zero =>
    intro n h
    have h0 : n = 0 := Nat.le_zero.mp h
    subst h0
    simp [digitsGo]
  | succ f ih =>
    intro n h
    by_cases h0 : n = 0
    · subst h0
      simp [digitsGo]
    · have hpos : 0 < n := Nat.pos_of_ne_zero h0
      have hdiv : n / 10 ≤ f := by
        have := Nat.div_lt_self hpos (by norm_num : 1 < 10)
        omega
      rw [show digitsGo (f + 1) n = n % 10 :: digitsGo f (n / 10) by simp [digitsGo, h0]]
      rw [ih (n / 10) hdiv, Nat.digits_def' (by norm_num : 1 < 10) hpos]

lemma natDigits_eq (n : ℕ) : natDigits n = Nat.digits 10 n := digitsGo_eq n n le_rfl

lemma natStr_ne_nil (n : ℕ) : natStr n ≠ [] := by
  unfold natStr
  by_cases h : n = 0
  · simp [h]
  · simp only [h, if_false]
    rw [natDigits_eq]
    intro hc
    have hnil : Nat.digits 10 n ≠ [] := Nat.digits_ne_nil_iff_ne_zero.mpr h
    simp at hc
    exact hnil hc

lemma natStr_all_digit (n : ℕ) : ∀ c ∈ natStr n, isDigitC c = true := by
  unfold natStr
  by_cases h : n = 0
  · simp [h]
    rfl
  · simp only [h, if_false]
    rw [natDigits_eq]
    intro c hc
    obtain ⟨d, hd, rfl⟩ := List.mem_map.mp hc
    have hd10 : d < 10 := Nat.digits_lt_base (by norm_num) (List.mem_reverse.mp hd)
    exact digitChar_isDigit d hd10

lemma digitsVal_foldl_shift (l : List Char) :
    ∀ s : ℕ, l.foldl (fun acc c => acc * 10 + (c.toNat - 48)) s =
      s * 10 ^ l.length + digitsVal l := by
  induction l with
  | nil => intro s; simp [digitsVal]
  | cons c t ih =>
    intro s
    simp only [List.foldl_cons, List.length_cons, digitsVal]
    rw [ih (s * 10 + (c.toNat - 48)), ih (0 * 10 + (c.toNat - 48))]
    ring

lemma digitsVal_append (a b : List Char) :
    digitsVal (a ++ b) = digitsVal a * 10 ^ b.length + digitsVal b := by
  unfold digitsVal
  rw [List.foldl_append]
  exact digitsVal_foldl_shift b _

lemma digitsVal_replicate_zero (k : ℕ) : digitsVal (List.replicate k '0') = 0 := by
  induction k with
  | zero => rfl
  | succ m ih =>
    rw [List.replicate_succ]
    show digitsVal ([(Char.ofNat 48)] ++ List.replicate m (Char.ofNat 48)) = 0
    rw [digitsVal_append, ih]
    have h1 : digitsVal [(Char.ofNat 48)] = 0 := by decide
    rw [h1]
    simp

lemma digitsVal_rev_digits (ds : List ℕ) (h : ∀ d ∈ ds, d < 10) :
    digitsVal (ds.reverse.map digitChar) = Nat.ofDigits 10 ds := by
  induction ds with
  | nil => rfl
  | cons d t ih =>
    rw [List.reverse_cons, List.map_append, digitsVal_append,
      ih (fun x hx => h x (by simp [hx])), Nat.ofDigits_cons]
    have hd : d < 10 := h d (by simp)
    show Nat.ofDigits 10 t * 10 ^ ([digitChar d].length) + digitsVal [digitChar d] =
      d + 10 * Nat.ofDigits 10 t
    have h1 : digitsVal [digitChar d] = d := by
      show 0 * 10 + ((digitChar d).toNat - 48) = d
      rw [digitChar_val d hd]
      ring
    rw [h1]
    simp
    ring

lemma digitsVal_natStr (n : ℕ) : digitsVal (natStr n) = n := by
  unfold natStr
  by_cases h : n = 0
  · simp [h]
    rfl
  · simp only [h, if_false]
    rw [natDigits_eq]
    rw [digitsVal_rev_digits _ (fun d hd => Nat.digits_lt_base (by norm_num) hd)]
    exact Nat.ofDigits_digits 10 n

lemma natStr_length_le (n k : ℕ) (hn : n ≠ 0) (h : n < 10 ^ k) : (natStr n).length ≤ k := by
  unfold natStr
  rw [natDigits_eq]
  simp only [hn, if_false, List.length_map, List.length_reverse]
  have h1 := Nat.base_pow_length_digits_le 10 n (by norm_num) hn
  by_contra hc
  push_neg at hc
  have h2 : 10 ^ (k + 1) ≤ 10 ^ (Nat.digits 10 n).length := Nat.pow_le_pow_right (by norm_num) hc
  have h3 : 10 ^ (k + 1) ≤ 10 * n := le_trans h2 h1
  have h4 : 10 * n < 10 * 10 ^ k := by omega
  rw [pow_succ] at h3
  omega

lemma padDigits_spec (n width : ℕ) (hn : n ≠ 0) (h : n < 10 ^ width) :
    (padDigits n width).length = width ∧ (∀ c ∈ padDigits n width, isDigitC c = true) ∧
      digitsVal (padDigits n width) = n ∧ padDigits n width ≠ [] := by
  have hlen := natStr_length_le n width hn h
  refine ⟨?_, ?_, ?_, ?_⟩
  · unfold padDigits
    rw [List.length_append, List.length_replicate]
    omega
  · intro c hc
    unfold padDigits at hc
    rcases List.mem_append.mp hc with h1 | h2
    · rw [List.eq_of_mem_replicate h1]
      rfl
    · exact natStr_all_digit n c h2
  · unfold padDigits
    rw [digitsVal_append, digitsVal_replicate_zero, digitsVal_natStr]
    ring
  · unfold padDigits
    intro hc
    exact natStr_ne_nil n (by
      rcases List.append_eq_nil.mp hc with ⟨_, h2⟩
      exact h2)

lemma fracChars_spec : ∀ (e fp : ℕ), fp < 10 ^ e →
    (fracChars fp e = [] ∧ fp = 0) ∨
    ∃ e2 fp2, fracChars fp e = '.' :: padDigits fp2 e2 ∧ 0 < e2 ∧ e2 ≤ e ∧
      fp = fp2 * 10 ^ (e - e2) ∧ fp2 < 10 ^ e2 ∧ fp2 ≠ 0 := by
  intro e
  induction e with
  | zero =>
    intro fp h
    left
    exact ⟨rfl, by omega⟩
  | succ m ih =>
    intro fp h
    by_cases h0 : fp = 0
    · left
      exact ⟨by simp [fracChars, h0], h0⟩
    · by_cases h10 : fp % 10 = 0
      · have heq : fracChars fp (m + 1) = fracChars (fp / 10) m := by
          simp [fracChars, h0, h10]
        have hd : fp / 10 < 10 ^ m := by
          have : fp = 10 * (fp / 10) := by omega
          rw [pow_succ] at h
          omega
        rcases ih (fp / 10) hd with ⟨hnil, hz⟩ | ⟨e2, fp2, hfc, he2, hle, hdec, hlt, hnz⟩
        · exfalso
          omega
        · right
          refine ⟨e2, fp2, heq.trans hfc, he2, by omega, ?_, hlt, hnz⟩
          have : fp = 10 * (fp / 10) := by omega
          rw [this, hdec]
          rw [show m + 1 - e2 = (m - e2) + 1 by omega, pow_succ]
          ring
      · right
        refine ⟨m + 1, fp, ?_, by omega, le_refl _, by simp, h, h0⟩
        simp [fracChars, h0, h10]

lemma decExp_dvd (den : ℕ) (h : 10 ^ 63 % den = 0) : 10 ^ decExp den % den = 0 := by
  unfold decExp
  cases hf : (List.range 64).find? (fun e => 10 ^ e % den == 0) with
  | none =>
    exfalso
    have h63 : (63 : ℕ) ∈ List.range 64 := by decide
    have := List.find?_eq_none.mp hf 63 h63
    simp at this
    exact this h
  | some e =>
    have := List.find?_some hf
    simpa using this

lemma splitChar_hit (ch : Char) (t : List Char) : splitChar ch (ch :: t) = ([ch], t) := by
  simp [splitChar]

lemma splitChar_miss {c : Char} (ch : Char) (t : List Char) (h : ¬(c = ch)) :
    splitChar ch (c :: t) = ([], c :: t) := by
  simp [splitChar, h]

lemma sep_facts {c : Char} (h : c = ',' ∨ c = ' ') :
    isDigitC c = false ∧ ¬(c = '.') ∧ ¬(c = 'e') ∧ ¬(c = '-') := by
  rcases h with rfl | rfl <;> refine ⟨by decide, by decide, by decide, by decide⟩

lemma exTail_facts (ex : List Char)
    (hex : ex = [] ∨ ∃ ed, ed ≠ [] ∧ (∀ c ∈ ed, isDigitC c = true) ∧ ex = 'e' :: '-' :: ed) :
    ex.takeWhile isDigitC = [] ∧ ex.dropWhile isDigitC = ex ∧ splitFrac ex = ([], ex) := by
  rcases hex with rfl | ⟨ed, _, _, rfl⟩
  · exact ⟨rfl, rfl, rfl⟩
  · have he : isDigitC 'e' = false := by decide
    refine ⟨?_, ?_, ?_⟩
    · simp [List.takeWhile_cons, he]
    · simp [List.dropWhile_cons, he]
    · simp [splitFrac]

lemma expoVal_neg (ed : List Char) (hed : ed ≠ []) (hedd : ∀ c ∈ ed, isDigitC c = true) :
    expoVal ('e' :: '-' :: ed) = 1 / 10 ^ digitsVal ed := by
  have htw : List.takeWhile isDigitC ed = ed := takeWhile_all _ ed hedd
  have hne : (((['-'] : List Char) = [])) = False := by simp
  have hedF : ((ed = [])) = False := by simp [hed]
  simp only [expoVal, if_pos rfl, splitChar_hit '-' ed, hne, if_false, if_true, htw, hedF]

lemma parseFloatJs_numeral_nofracExp (sgn ip ex : List Char) (hs : sgn = [] ∨ sgn = ['-'])
    (hip : ip ≠ []) (hipd : ∀ c ∈ ip, isDigitC c = true)
    (hex : ex = [] ∨ ∃ ed, ed ≠ [] ∧ (∀ c ∈ ed, isDigitC c = true) ∧ ex = 'e' :: '-' :: ed) :
    parseFloatJs (sgn ++ ip ++ ex) =
      some ((if sgn = [] then (digitsVal ip : ℚ) else -(digitsVal ip : ℚ)) * expoVal ex) := by
  obtain ⟨c, t, hct⟩ : ∃ c t, ip = c :: t := by
    cases hip2 : ip with
    | nil => exact absurd hip2 hip
    | cons c t => exact ⟨c, t, rfl⟩
  obtain ⟨hext, hexd, hexf⟩ := exTail_facts ex hex
  rcases hs with rfl | rfl
  · have h1 : splitChar '-' (ip ++ ex) = ([], ip ++ ex) := by
      rw [hct]
      exact splitChar_miss '-' _ (isDigitC_ne_dash (hipd c (by rw [hct]; simp)))
    simp only [List.nil_append, parseFloatJs, h1, takeWhile_all_append _ ip _ hipd,
      dropWhile_all_append _ ip _ hipd, hext, hexd, List.append_nil, hexf]
    rw [if_neg (by simp [hip])]
    simp [digitsVal]
  · have h1 : splitChar '-' ('-' :: (ip ++ ex)) = (['-'], ip ++ ex) := splitChar_hit '-' _
    simp only [List.cons_append, List.nil_append, parseFloatJs, h1,
      takeWhile_all_append _ ip _ hipd, dropWhile_all_append _ ip _ hipd, hext, hexd,
      List.append_nil, hexf]
    rw [if_neg (by simp [hip])]
    simp [digitsVal]

lemma parseFloatJs_numeral_nofrac (sgn ip : List Char) (hs : sgn = [] ∨ sgn = ['-'])
    (hip : ip ≠ []) (hipd : ∀ c ∈ ip, isDigitC c = true) :
    parseFloatJs (sgn ++ ip) =
      some (if sgn = [] then (digitsVal ip : ℚ) else -(digitsVal ip : ℚ)) := by
  have h := parseFloatJs_numeral_nofracExp sgn ip [] hs hip hipd (Or.inl rfl)
  rw [List.append_nil] at h
  rw [h]
  simp [expoVal]

lemma parseFloatJs_numeral_fracExp (sgn ip fd ex : List Char) (hs : sgn = [] ∨ sgn = ['-'])
    (hip : ip ≠ []) (hipd : ∀ c ∈ ip, isDigitC c = true)
    (hfd : fd ≠ []) (hfdd : ∀ c ∈ fd, isDigitC c = true)
    (hex : ex = [] ∨ ∃ ed, ed ≠ [] ∧ (∀ c ∈ ed, isDigitC c = true) ∧ ex = 'e' :: '-' :: ed) :
    parseFloatJs (sgn ++ ip ++ '.' :: fd ++ ex) =
      some ((if sgn = [] then ((digitsVal ip : ℚ) + (digitsVal fd : ℚ) / 10 ^ fd.length)
            else -((digitsVal ip : ℚ) + (digitsVal fd : ℚ) / 10 ^ fd.length)) * expoVal ex) := by
  obtain ⟨c, t, hct⟩ : ∃ c t, ip = c :: t := by
    cases hip2 : ip with
    | nil => exact absurd hip2 hip
    | cons c t => exact ⟨c, t, rfl⟩
  obtain ⟨hext, hexd, hexf⟩ := exTail_facts ex hex
  have hdot : isDigitC '.' = false := by decide
  have htw : (ip ++ '.' :: (fd ++ ex)).takeWhile isDigitC = ip := by
    rw [takeWhile_all_append _ ip _ hipd]
    simp [List.takeWhile_cons, hdot]
  have hdw : (ip ++ '.' :: (fd ++ ex)).dropWhile isDigitC = '.' :: (fd ++ ex) := by
    rw [dropWhile_all_append _ ip _ hipd]
    simp [List.dropWhile_cons, hdot]
  have hsf : splitFrac ('.' :: (fd ++ ex)) = (fd, ex) := by
    simp [splitFrac, takeWhile_all_append _ fd _ hfdd, dropWhile_all_append _ fd _ hfdd,
      hext, hexd]
  rcases hs with rfl | rfl
  · have h1 : splitChar '-' (ip ++ '.' :: (fd ++ ex)) = ([], ip ++ '.' :: (fd ++ ex)) := by
      rw [hct]
      exact splitChar_miss '-' _ (isDigitC_ne_dash (hipd c (by rw [hct]; simp)))
    simp only [List.nil_append, List.cons_append, List.append_assoc, parseFloatJs, h1, htw,
      hdw, hsf]
    rw [if_neg (by simp [hip])]
  · have h1 : splitChar '-' ('-' :: (ip ++ '.' :: (fd ++ ex))) =
        (['-'], ip ++ '.' :: (fd ++ ex)) := splitChar_hit '-' _
    simp only [List.cons_append, List.nil_append, List.append_assoc, parseFloatJs, h1, htw,
      hdw, hsf]
    rw [if_neg (by simp [hip])]

lemma parseFloatJs_numeral_frac (sgn ip fd : List Char) (hs : sgn = [] ∨ sgn = ['-'])
    (hip : ip ≠ []) (hipd : ∀ c ∈ ip, isDigitC c = true)
    (hfd : fd ≠ []) (hfdd : ∀ c ∈ fd, isDigitC c = true) :
    parseFloatJs (sgn ++ ip ++ '.' :: fd) =
      some (if sgn = [] then ((digitsVal ip : ℚ) + (digitsVal fd : ℚ) / 10 ^ fd.length)
            else -((digitsVal ip : ℚ) + (digitsVal fd : ℚ) / 10 ^ fd.length)) := by
  have h := parseFloatJs_numeral_fracExp sgn ip fd [] hs hip hipd hfd hfdd (Or.inl rfl)
  rw [List.append_nil] at h
  rw [h]
  simp [expoVal]

lemma parseFloatJs_qCharsPlain (q : ℚ) (hden : 10 ^ 63 % q.den = 0) :
    parseFloatJs (qCharsPlain q) = some q := by
  have hpos : 0 < q.den := q.pos
  have hdvd : q.den ∣ 10 ^ decExp q.den := Nat.dvd_of_mod_eq_zero (decExp_dvd q.den hden)
  have hqc : qCharsPlain q =
      (if q < 0 then ['-'] else []) ++
        natStr (q.num.natAbs * 10 ^ decExp q.den / q.den / 10 ^ decExp q.den) ++
        fracChars (q.num.natAbs * 10 ^ decExp q.den / q.den % 10 ^ decExp q.den)
          (decExp q.den) := rfl
  set e := decExp q.den with he
  set n := q.num.natAbs * 10 ^ e / q.den with hn
  set ip := n / 10 ^ e with hip
  set fp := n % 10 ^ e with hfp
  have hmul : n * q.den = q.num.natAbs * 10 ^ e := Nat.div_mul_cancel (Dvd.dvd.mul_left hdvd _)
  have hpe : (0:ℕ) < 10 ^ e := pow_pos (by norm_num) e
  have hnif : ip * 10 ^ e + fp = n := by
    rw [hip, hfp, Nat.mul_comm]
    exact Nat.div_add_mod n (10 ^ e)
  have hfplt : fp < 10 ^ e := Nat.mod_lt n hpe
  have hdenQ : ((q.den : ℚ)) ≠ 0 := Nat.cast_ne_zero.mpr hpos.ne'
  have hpeQ : ((10:ℚ) ^ e) ≠ 0 := by positivity
  have habs : (n : ℚ) = |q| * 10 ^ e := by
    have h1 : ((n : ℚ)) * (q.den : ℚ) = (q.num.natAbs : ℚ) * (10:ℚ) ^ e := by
      exact_mod_cast congrArg (fun z : ℕ => (z : ℚ)) hmul
    have habs2 : |q| = (q.num.natAbs : ℚ) / (q.den : ℚ) := by
      calc |q| = |(q.num : ℚ) / (q.den : ℚ)| := by rw [Rat.num_div_den]
        _ = |(q.num : ℚ)| / |(q.den : ℚ)| := abs_div _ _
        _ = ((q.num.natAbs : ℚ)) / ((q.den : ℚ)) := by
            rw [Int.cast_natAbs, Int.cast_abs,
              abs_of_pos (Nat.cast_pos.mpr hpos : (0:ℚ) < (q.den : ℚ))]
    rw [habs2]
    field_simp
    linarith [h1]
  rcases fracChars_spec e fp hfplt with ⟨hfc, hfp0⟩ | ⟨e2, fp2, hfc, he2pos, he2le, hdec, hlt2, hnz2⟩
  · -- integer case: no fraction part
    rw [hfc, List.append_nil] at hqc
    have hval : (ip : ℚ) = |q| := by
      have hc1 : ((ip : ℚ) * 10 ^ e + (fp : ℚ)) = (n : ℚ) := by exact_mod_cast hnif
      rw [hfp0] at hc1
      push_cast at hc1
      have : (ip : ℚ) * 10 ^ e = |q| * 10 ^ e := by rw [← habs]; linarith
      exact mul_right_cancel₀ hpeQ this
    by_cases hq : q < 0
    · rw [if_pos hq] at hqc
      rw [hqc]
      rw [parseFloatJs_numeral_nofrac ['-'] (natStr ip) (Or.inr rfl) (natStr_ne_nil ip)
        (natStr_all_digit ip)]
      rw [if_neg (by simp)]
      rw [digitsVal_natStr, hval, abs_of_neg hq]
      simp
    · rw [if_neg hq] at hqc
      rw [hqc, List.nil_append]
      have := parseFloatJs_numeral_nofrac [] (natStr ip) (Or.inl rfl) (natStr_ne_nil ip)
        (natStr_all_digit ip)
      rw [List.nil_append] at this
      rw [this, if_pos rfl, digitsVal_natStr, hval, abs_of_nonneg (not_lt.mp hq)]
  · -- fraction case
    obtain ⟨hplen, hpdig, hpval, hpne⟩ := padDigits_spec fp2 e2 hnz2 hlt2
    rw [hfc] at hqc
    have hpe2Q : ((10:ℚ) ^ e2) ≠ 0 := by positivity
    have hval : (ip : ℚ) + (fp2 : ℚ) / 10 ^ e2 = |q| := by
      have hc1 : ((ip : ℚ) * 10 ^ e + (fp : ℚ)) = (n : ℚ) := by exact_mod_cast hnif
      have hc2 : (fp : ℚ) = (fp2 : ℚ) * 10 ^ (e - e2) := by exact_mod_cast hdec
      have hpow : (10:ℚ) ^ (e - e2) * 10 ^ e2 = 10 ^ e := by
        rw [← pow_add]
        congr 1
        omega
      have habs' : |q| = (n : ℚ) / 10 ^ e := by
        rw [habs]
        field_simp
      rw [habs', ← hc1, hc2, add_div]
      congr 1
      · rw [mul_div_assoc, div_self hpeQ, mul_one]
      · rw [div_eq_div_iff hpe2Q hpeQ, ← hpow]
        ring
    by_cases hq : q < 0
    · rw [if_pos hq] at hqc
      rw [hqc]
      rw [parseFloatJs_numeral_frac ['-'] (natStr ip) (padDigits fp2 e2) (Or.inr rfl)
        (natStr_ne_nil ip) (natStr_all_digit ip) hpne hpdig]
      rw [if_neg (by simp)]
      rw [digitsVal_natStr, hpval, hplen, hval, abs_of_neg hq]
      simp
    · rw [if_neg hq] at hqc
      rw [hqc, List.nil_append]
      have h2 := parseFloatJs_numeral_frac [] (natStr ip) (padDigits fp2 e2) (Or.inl rfl)
        (natStr_ne_nil ip) (natStr_all_digit ip) hpne hpdig
      rw [List.nil_append] at h2
      rw [h2, if_pos rfl, digitsVal_natStr, hpval, hplen, hval,
        abs_of_nonneg (not_lt.mp hq)]

lemma qCharsPlain_numeral (q : ℚ) (hden : 10 ^ 63 % q.den = 0) :
    IsNumeral (qCharsPlain q) := by
  have hqc : qCharsPlain q =
      (if q < 0 then ['-'] else []) ++
        natStr (q.num.natAbs * 10 ^ decExp q.den / q.den / 10 ^ decExp q.den) ++
        fracChars (q.num.natAbs * 10 ^ decExp q.den / q.den % 10 ^ decExp q.den)
          (decExp q.den) := rfl
  set e := decExp q.den with he
  set n := q.num.natAbs * 10 ^ e / q.den with hn
  set ip := n / 10 ^ e with hip
  set fp := n % 10 ^ e with hfp
  have hpe : (0:ℕ) < 10 ^ e := pow_pos (by norm_num) e
  have hfplt : fp < 10 ^ e := Nat.mod_lt n hpe
  refine ⟨if q < 0 then ['-'] else [], natStr ip, fracChars fp e, [], ?_,
    natStr_ne_nil ip, natStr_all_digit ip, ?_, Or.inl rfl, ?_⟩
  · split_ifs <;> simp
  · rcases fracChars_spec e fp hfplt with ⟨hfc, _⟩ | ⟨e2, fp2, hfc, _, _, _, hlt2, hnz2⟩
    · exact Or.inl hfc
    · obtain ⟨_, hpdig, _, hpne⟩ := padDigits_spec fp2 e2 hnz2 hlt2
      exact Or.inr ⟨padDigits fp2 e2, hpne, hpdig, hfc⟩
  · rw [List.append_nil]
    exact hqc

lemma scaled_abs (q : ℚ) (hden : 10 ^ 63 % q.den = 0) :
    ((q.num.natAbs * 10 ^ decExp q.den / q.den : ℕ) : ℚ) = |q| * 10 ^ decExp q.den := by
  have hpos : 0 < q.den := q.pos
  have hdvd : q.den ∣ 10 ^ decExp q.den := Nat.dvd_of_mod_eq_zero (decExp_dvd q.den hden)
  set e := decExp q.den with he
  set n := q.num.natAbs * 10 ^ e / q.den with hn
  have hmul : n * q.den = q.num.natAbs * 10 ^ e := Nat.div_mul_cancel (Dvd.dvd.mul_left hdvd _)
  have hdenQ : ((q.den : ℚ)) ≠ 0 := Nat.cast_ne_zero.mpr hpos.ne'
  have h1 : ((n : ℚ)) * (q.den : ℚ) = (q.num.natAbs : ℚ) * (10:ℚ) ^ e := by
    exact_mod_cast congrArg (fun z : ℕ => (z : ℚ)) hmul
  have habs2 : |q| = (q.num.natAbs : ℚ) / (q.den : ℚ) := by
    calc |q| = |(q.num : ℚ) / (q.den : ℚ)| := by rw [Rat.num_div_den]
      _ = |(q.num : ℚ)| / |(q.den : ℚ)| := abs_div _ _
      _ = ((q.num.natAbs : ℚ)) / ((q.den : ℚ)) := by
          rw [Int.cast_natAbs, Int.cast_abs,
            abs_of_pos (Nat.cast_pos.mpr hpos : (0:ℚ) < (q.den : ℚ))]
  rw [habs2]
  field_simp
  linarith [h1]

lemma ofDigits_replicate_zero (t : ℕ) : Nat.ofDigits 10 (List.replicate t 0) = 0 := by
  induction t with
  | zero => rfl
  | succ k ih =>
    rw [List.replicate_succ, Nat.ofDigits_cons, ih]

lemma dropWhile_head_not {α : Type} (p : α → Bool) :
    ∀ (l : List α) (d : α) (t2 : List α), l.dropWhile p = d :: t2 → p d = false := by
  intro l
  induction l with
  | nil =>
    intro d t2 h
    simp [List.dropWhile] at h
  | cons c t ih =>
    intro d t2 h
    rw [List.dropWhile_cons] at h
    by_cases hc : p c = true
    · rw [if_pos hc] at h
      exact ih d t2 h
    · rw [if_neg hc] at h
      injection h with h1 _
      subst h1
      exact Bool.not_eq_true _ |>.mp hc

lemma natStr_length (n : ℕ) (hn : n ≠ 0) : (natStr n).length = (natDigits n).length := by
  unfold natStr
  simp [hn]

lemma digits_split_zeros (m : ℕ) (hm : m ≠ 0) :
    ∃ S t : ℕ, S ≠ 0 ∧ m = 10 ^ t * S ∧
      (Nat.digits 10 m).length = t + (natStr S).length ∧
      ((Nat.digits 10 m).dropWhile (fun d => d == 0)).reverse.map digitChar = natStr S := by
  have hsplit : (Nat.digits 10 m).takeWhile (fun d => d == 0) ++
      (Nat.digits 10 m).dropWhile (fun d => d == 0) = Nat.digits 10 m :=
    List.takeWhile_append_dropWhile _ _
  have htw0 : ∀ d ∈ (Nat.digits 10 m).takeWhile (fun d => d == 0), d = 0 := by
    intro d hd
    have := List.mem_takeWhile_imp hd
    simpa using this
  have htwrep : (Nat.digits 10 m).takeWhile (fun d => d == 0) =
      List.replicate ((Nat.digits 10 m).takeWhile (fun d => d == 0)).length 0 :=
    List.eq_replicate_of_mem htw0
  have hofd : Nat.ofDigits 10 (Nat.digits 10 m) = m := Nat.ofDigits_digits 10 m
  have h4 : Nat.ofDigits 10 ((Nat.digits 10 m).takeWhile (fun d => d == 0)) = 0 := by
    rw [htwrep]
    exact ofDigits_replicate_zero _
  have hsdne : (Nat.digits 10 m).dropWhile (fun d => d == 0) ≠ [] := by
    intro h0
    apply hm
    conv_lhs => rw [← hofd, ← hsplit]
    rw [h0, List.append_nil, h4]
  obtain ⟨d0, sd2, hsd2⟩ : ∃ d0 sd2,
      (Nat.digits 10 m).dropWhile (fun d => d == 0) = d0 :: sd2 := by
    cases h2 : (Nat.digits 10 m).dropWhile (fun d => d == 0) with
    | nil => exact absurd h2 hsdne
    | cons d0 sd2 => exact ⟨d0, sd2, rfl⟩
  have hd0 : d0 ≠ 0 := by
    have := dropWhile_head_not (fun d => d == 0) (Nat.digits 10 m) d0 sd2 hsd2
    simpa using this
  have hS0 : Nat.ofDigits 10 ((Nat.digits 10 m).dropWhile (fun d => d == 0)) ≠ 0 := by
    rw [hsd2, Nat.ofDigits_cons]
    omega
  have hlt : ∀ d ∈ (Nat.digits 10 m).dropWhile (fun d => d == 0), d < 10 := by
    intro d hd
    exact Nat.digits_lt_base (by norm_num) ((List.dropWhile_sublist _).mem hd)
  have hlast : ∀ (h : (Nat.digits 10 m).dropWhile (fun d => d == 0) ≠ []),
      ((Nat.digits 10 m).dropWhile (fun d => d == 0)).getLast h ≠ 0 := by
    intro h
    have hds_ne : Nat.digits 10 m ≠ [] := Nat.digits_ne_nil_iff_ne_zero.mpr hm
    have h1 : (Nat.digits 10 m).getLast? =
        ((Nat.digits 10 m).dropWhile (fun d => d == 0)).getLast? := by
      conv_lhs => rw [← hsplit]
      exact List.getLast?_append_of_ne_nil _ h
    rw [List.getLast?_eq_getLast_of_ne_nil hds_ne,
      List.getLast?_eq_getLast_of_ne_nil h] at h1
    have h3 : (Nat.digits 10 m).getLast hds_ne =
        ((Nat.digits 10 m).dropWhile (fun d => d == 0)).getLast h := Option.some.inj h1
    rw [← h3]
    exact Nat.getLast_digit_ne_zero 10 hm
  have hdig : Nat.digits 10 (Nat.ofDigits 10 ((Nat.digits 10 m).dropWhile (fun d => d == 0))) =
      (Nat.digits 10 m).dropWhile (fun d => d == 0) :=
    Nat.digits_ofDigits 10 (by norm_num) _ hlt hlast
  refine ⟨Nat.ofDigits 10 ((Nat.digits 10 m).dropWhile (fun d => d == 0)),
    ((Nat.digits 10 m).takeWhile (fun d => d == 0)).length, hS0, ?_, ?_, ?_⟩
  · conv_lhs => rw [← hofd, ← hsplit]
    rw [Nat.ofDigits_append, h4]
    simp
  · conv_lhs => rw [← hsplit]
    rw [List.length_append, natStr_length _ hS0, natDigits_eq, hdig]
  · rw [show natStr (Nat.ofDigits 10 ((Nat.digits 10 m).dropWhile (fun d => d == 0))) =
      (natDigits (Nat.ofDigits 10 ((Nat.digits 10 m).dropWhile (fun d => d == 0)))).reverse.map
        digitChar by simp [natStr, hS0]]
    rw [natDigits_eq, hdig]

lemma qCharsExp_spec (q : ℚ) (hden : 10 ^ 63 % q.den = 0)
    (hm : q.num.natAbs * 10 ^ decExp q.den / q.den ≠ 0)
    (hsmall : (natDigits (q.num.natAbs * 10 ^ decExp q.den / q.den)).length + 5 <
      decExp q.den) :
    parseFloatJs (qCharsExp q) = some q ∧ IsNumeral (qCharsExp q) := by
  have habs : ((q.num.natAbs * 10 ^ decExp q.den / q.den : ℕ) : ℚ) =
      |q| * 10 ^ decExp q.den := scaled_abs q hden
  obtain ⟨S, t, hS0, hmST, hlen, hbd⟩ :=
    digits_split_zeros (q.num.natAbs * 10 ^ decExp q.den / q.den) hm
  have hbd2 : ((natDigits (q.num.natAbs * 10 ^ decExp q.den / q.den)).dropWhile
      (fun d => d == 0)).reverse.map digitChar = natStr S := by
    rw [natDigits_eq]
    exact hbd
  have hlenN : (natDigits (q.num.natAbs * 10 ^ decExp q.den / q.den)).length =
      t + (natStr S).length := by
    rw [natDigits_eq]
    exact hlen
  obtain ⟨d0, rest, hds⟩ : ∃ d0 rest, natStr S = d0 :: rest := by
    cases h2 : natStr S with
    | nil => exact absurd h2 (natStr_ne_nil S)
    | cons d0 rest => exact ⟨d0, rest, rfl⟩
  have hklen : (natStr S).length = rest.length + 1 := by rw [hds]; simp
  have hbranch : ¬(decExp q.den + 21 <
      (natDigits (q.num.natAbs * 10 ^ decExp q.den / q.den)).length) := by omega
  have hqce : qCharsExp q =
      (if q < 0 then ['-'] else []) ++ mantChars (natStr S) ++
        'e' :: '-' :: natStr (decExp q.den -
          (natDigits (q.num.natAbs * 10 ^ decExp q.den / q.den)).length + 1) := by
    rw [show qCharsExp q =
      (if q < 0 then ['-'] else []) ++
        mantChars (((natDigits (q.num.natAbs * 10 ^ decExp q.den / q.den)).dropWhile
          (fun d => d == 0)).reverse.map digitChar) ++
        'e' :: (if decExp q.den + 21 <
            (natDigits (q.num.natAbs * 10 ^ decExp q.den / q.den)).length
          then '+' :: natStr ((natDigits (q.num.natAbs * 10 ^ decExp q.den / q.den)).length -
            decExp q.den - 1)
          else '-' :: natStr (decExp q.den -
            (natDigits (q.num.natAbs * 10 ^ decExp q.den / q.den)).length + 1)) from rfl]
    rw [if_neg hbranch, hbd2]
  obtain ⟨K, hK⟩ : ∃ K, K = decExp q.den -
      (natDigits (q.num.natAbs * 10 ^ decExp q.den / q.den)).length + 1 := ⟨_, rfl⟩
  rw [← hK] at hqce
  have hrK : rest.length + K = decExp q.den - t := by omega
  have het : t ≤ decExp q.den := by omega
  have hSq : (S : ℚ) = |q| * 10 ^ (decExp q.den - t) := by
    have h1 : ((10 ^ t * S : ℕ) : ℚ) = |q| * 10 ^ decExp q.den := by
      rw [← hmST]
      exact habs
    push_cast at h1
    have hpow : (10:ℚ) ^ (decExp q.den - t) * 10 ^ t = 10 ^ decExp q.den := by
      rw [← pow_add]
      congr 1
      omega
    have h10 : ((10:ℚ) ^ t) ≠ 0 := by positivity
    have h2 : (S : ℚ) * 10 ^ t = (|q| * 10 ^ (decExp q.den - t)) * 10 ^ t := by
      rw [mul_assoc, hpow]
      linarith [h1]
    exact mul_right_cancel₀ h10 h2
  have hd0dig : isDigitC d0 = true := natStr_all_digit S d0 (by rw [hds]; simp)
  have hrestdig : ∀ c ∈ rest, isDigitC c = true :=
    fun c hc => natStr_all_digit S c (by rw [hds]; simp [hc])
  have hSval : digitsVal (natStr S) = S := digitsVal_natStr S
  have hKne : natStr K ≠ [] := natStr_ne_nil K
  have hKdig : ∀ c ∈ natStr K, isDigitC c = true := natStr_all_digit K
  have hexP : ('e' :: '-' :: natStr K) = [] ∨ ∃ ed, ed ≠ [] ∧
      (∀ c ∈ ed, isDigitC c = true) ∧ ('e' :: '-' :: natStr K) = 'e' :: '-' :: ed :=
    Or.inr ⟨natStr K, hKne, hKdig, rfl⟩
  have hexpoK : expoVal ('e' :: '-' :: natStr K) = 1 / 10 ^ K := by
    rw [expoVal_neg _ hKne hKdig, digitsVal_natStr]
  by_cases hrest : rest = []
  · -- one-digit significand: d0 e-K
    subst hrest
    have hmant : mantChars (natStr S) = [d0] := by rw [hds]; simp [mantChars]
    rw [hmant] at hqce
    have hδ : digitsVal [d0] = S := by rw [← hSval, hds]
    have hKet : K = decExp q.den - t := by
      simp only [List.length_nil, Nat.zero_add] at hrK
      omega
    have habsq : |q| = (S : ℚ) / 10 ^ K := by
      rw [hKet, hSq]
      have hp : ((10:ℚ) ^ (decExp q.den - t)) ≠ 0 := by positivity
      field_simp
    constructor
    · by_cases hq : q < 0
      · rw [hqce, if_pos hq]
        rw [parseFloatJs_numeral_nofracExp ['-'] [d0] _ (Or.inr rfl) (by simp)
          (by simpa using hd0dig) hexP]
        rw [if_neg (by simp), hexpoK, hδ]
        congr 1
        rw [show -(S : ℚ) * (1 / 10 ^ K) = -((S : ℚ) / 10 ^ K) by ring, ← habsq,
          abs_of_neg hq, neg_neg]
      · rw [hqce, if_neg hq]
        have happ := parseFloatJs_numeral_nofracExp [] [d0] ('e' :: '-' :: natStr K)
          (Or.inl rfl) (by simp) (by simpa using hd0dig) hexP
        rw [happ, if_pos rfl, hexpoK, hδ]
        congr 1
        rw [show (S : ℚ) * (1 / 10 ^ K) = (S : ℚ) / 10 ^ K by ring, ← habsq,
          abs_of_nonneg (not_lt.mp hq)]
    · refine ⟨if q < 0 then ['-'] else [], [d0], [], 'e' :: '-' :: natStr K, ?_,
        by simp, by simpa using hd0dig, Or.inl rfl, hexP, ?_⟩
      · split_ifs <;> simp
      · rw [hqce]
        simp
  · -- multi-digit significand: d0.rest e-K
    have hmant : mantChars (natStr S) = d0 :: '.' :: rest := by
      rw [hds]
      simp [mantChars, hrest]
    rw [hmant] at hqce
    have hdv : S = digitsVal [d0] * 10 ^ rest.length + digitsVal rest := by
      have h6 := digitsVal_append [d0] rest
      rw [show [d0] ++ rest = natStr S from by rw [hds]; rfl, hSval] at h6
      exact h6
    have hr10 : ((10:ℚ) ^ rest.length) ≠ 0 := by positivity
    have hK10 : ((10:ℚ) ^ K) ≠ 0 := by positivity
    have hcast : ((digitsVal [d0] : ℚ)) + (digitsVal rest : ℚ) / 10 ^ rest.length =
        (S : ℚ) / 10 ^ rest.length := by
      have h5 : ((digitsVal [d0] * 10 ^ rest.length + digitsVal rest : ℕ) : ℚ) = (S : ℚ) := by
        exact_mod_cast (congrArg (fun z : ℕ => (z : ℚ)) hdv).symm
      push_cast at h5
      field_simp
      linarith [h5]
    have hval : (((digitsVal [d0] : ℚ)) + (digitsVal rest : ℚ) / 10 ^ rest.length) *
        (1 / 10 ^ K) = |q| := by
      rw [hcast, hSq]
      have hpw : (10:ℚ) ^ (decExp q.den - t) = 10 ^ rest.length * 10 ^ K := by
        rw [← pow_add]
        congr 1
        omega
      rw [hpw]
      field_simp
    constructor
    · by_cases hq : q < 0
      · rw [hqce, if_pos hq]
        rw [show (['-'] : List Char) ++ (d0 :: '.' :: rest) ++ 'e' :: '-' :: natStr K =
          ['-'] ++ [d0] ++ '.' :: rest ++ ('e' :: '-' :: natStr K) by simp]
        rw [parseFloatJs_numeral_fracExp ['-'] [d0] rest _ (Or.inr rfl) (by simp)
          (by simpa using hd0dig) hrest hrestdig hexP]
        rw [if_neg (by simp), hexpoK]
        congr 1
        rw [show -((digitsVal [d0] : ℚ) + (digitsVal rest : ℚ) / 10 ^ rest.length) *
          (1 / 10 ^ K) = -(((digitsVal [d0] : ℚ) + (digitsVal rest : ℚ) / 10 ^ rest.length) *
          (1 / 10 ^ K)) by ring, hval, abs_of_neg hq, neg_neg]
      · rw [hqce, if_neg hq]
        rw [show ([] : List Char) ++ (d0 :: '.' :: rest) ++ 'e' :: '-' :: natStr K =
          [] ++ [d0] ++ '.' :: rest ++ ('e' :: '-' :: natStr K) by simp]
        rw [parseFloatJs_numeral_fracExp [] [d0] rest _ (Or.inl rfl) (by simp)
          (by simpa using hd0dig) hrest hrestdig hexP]
        rw [if_pos rfl, hexpoK]
        congr 1
        rw [hval, abs_of_nonneg (not_lt.mp hq)]
    · refine ⟨if q < 0 then ['-'] else [], [d0], '.' :: rest, 'e' :: '-' :: natStr K, ?_,
        by simp, by simpa using hd0dig, Or.inr ⟨rest, hrest, hrestdig, rfl⟩, hexP, ?_⟩
      · split_ifs <;> simp
      · rw [hqce]
        simp

lemma qChars_cases (q : ℚ) (hden : 10 ^ 63 % q.den = 0) (hmag : |q| < 10 ^ 21) :
    qChars q = qCharsPlain q ∨
      (qChars q = qCharsExp q ∧ q.num.natAbs * 10 ^ decExp q.den / q.den ≠ 0 ∧
        (natDigits (q.num.natAbs * 10 ^ decExp q.den / q.den)).length + 5 <
          decExp q.den) := by
  unfold qChars
  by_cases h : q.num.natAbs * 10 ^ decExp q.den / q.den = 0 ∨
      (decExp q.den ≤ (natDigits (q.num.natAbs * 10 ^ decExp q.den / q.den)).length + 5 ∧
       (natDigits (q.num.natAbs * 10 ^ decExp q.den / q.den)).length ≤ decExp q.den + 21)
  · rw [if_pos h]
    exact Or.inl rfl
  · rw [if_neg h]
    push_neg at h
    obtain ⟨hm0, himp⟩ := h
    have hlt : q.num.natAbs * 10 ^ decExp q.den / q.den < 10 ^ (decExp q.den + 21) := by
      have habs := scaled_abs q hden
      have hpp : (0:ℚ) < 10 ^ decExp q.den := by positivity
      have h2 : ((q.num.natAbs * 10 ^ decExp q.den / q.den : ℕ) : ℚ) <
          10 ^ 21 * 10 ^ decExp q.den := by
        rw [habs]
        exact mul_lt_mul_of_pos_right hmag hpp
      have h3 : ((q.num.natAbs * 10 ^ decExp q.den / q.den : ℕ) : ℚ) <
          ((10 ^ (decExp q.den + 21) : ℕ) : ℚ) := by
        push_cast
        calc ((q.num.natAbs * 10 ^ decExp q.den / q.den : ℕ) : ℚ)
            < 10 ^ 21 * 10 ^ decExp q.den := h2
          _ = 10 ^ (decExp q.den + 21) := by rw [← pow_add, Nat.add_comm]
      exact_mod_cast h3
    have hlen21 : (natDigits (q.num.natAbs * 10 ^ decExp q.den / q.den)).length ≤
        decExp q.den + 21 := by
      have h7 := natStr_length_le (q.num.natAbs * 10 ^ decExp q.den / q.den)
        (decExp q.den + 21) hm0 hlt
      rw [natStr_length _ hm0] at h7
      exact h7
    have hsm : (natDigits (q.num.natAbs * 10 ^ decExp q.den / q.den)).length + 5 <
        decExp q.den := by
      by_contra hcon
      push_neg at hcon
      have := himp hcon
      omega
    exact Or.inr ⟨rfl, hm0, hsm⟩

lemma parseFloatJs_qChars (q : ℚ) (hden : 10 ^ 63 % q.den = 0) (hmag : |q| < 10 ^ 21) :
    parseFloatJs (qChars q) = some q := by
  rcases qChars_cases q hden hmag with h | ⟨h, hm0, hsm⟩
  · rw [h]
    exact parseFloatJs_qCharsPlain q hden
  · rw [h]
    exact (qCharsExp_spec q hden hm0 hsm).1

lemma qChars_numeral (q : ℚ) (hden : 10 ^ 63 % q.den = 0) (hmag : |q| < 10 ^ 21) :
    IsNumeral (qChars q) := by
  rcases qChars_cases q hden hmag with h | ⟨h, hm0, hsm⟩
  · rw [h]
    exact qCharsPlain_numeral q hden
  · rw [h]
    exact (qCharsExp_spec q hden hm0 hsm).2

lemma digit_param {c : Char} (h : isDigitC c = true) : isParamChar c = true := by
  simp [isParamChar, h]

lemma isNumeral_params {l : List Char} (h : IsNumeral l) : ∀ c ∈ l, isParamChar c = true := by
  obtain ⟨sgn, ip, fp, ex, hs, _, hipd, hfp, hex, rfl⟩ := h
  intro c hc
  rcases List.mem_append.mp hc with hc1 | hcx
  · rcases List.mem_append.mp hc1 with hc0 | hc2
    · rcases List.mem_append.mp hc0 with hcs | hci
      · rcases hs with rfl | rfl
        · simp at hcs
        · simp at hcs
          subst hcs
          decide
      · exact digit_param (hipd c hci)
    · rcases hfp with rfl | ⟨fd, _, hfdd, rfl⟩
      · simp at hc2
      · rcases List.mem_cons.mp hc2 with rfl | hcf
        · decide
        · exact digit_param (hfdd c hcf)
  · rcases hex with rfl | ⟨ed, _, hedd, rfl⟩
    · simp at hcx
    · rcases List.mem_cons.mp hcx with rfl | hcx2
      · decide
      · rcases List.mem_cons.mp hcx2 with rfl | hcx3
        · decide
        · exact digit_param (hedd c hcx3)

lemma numeral_ne_nil {l : List Char} (h : IsNumeral l) : l ≠ [] := by
  obtain ⟨sgn, ip, fp, ex, _, hip, _, _, _, rfl⟩ := h
  simp [hip]

lemma commandChar_not_param {c : Char} (h : isCommandChar c = true) : isParamChar c = false := by
  have h2 : ((97 ≤ c.toNat ∧ c.toNat ≤ 100) ∨ (102 ≤ c.toNat ∧ c.toNat ≤ 122)) ∨
      (65 ≤ c.toNat ∧ c.toNat ≤ 90) := by
    simpa [isCommandChar] using h
  have hdigit : isDigitC c = false := by
    simp only [isDigitC, Bool.and_eq_false_iff, decide_eq_false_iff_not]
    omega
  have hdot : ¬(c = '.') := fun hc => absurd h (by subst hc; decide)
  have hcomma : ¬(c = ',') := fun hc => absurd h (by subst hc; decide)
  have hspace : ¬(c = ' ') := fun hc => absurd h (by subst hc; decide)
  have he : ¬(c = 'e') := fun hc => absurd h (by subst hc; decide)
  have hdash : ¬(c = '-') := fun hc => absurd h (by subst hc; decide)
  simp only [isParamChar, Bool.or_eq_false_iff, beq_eq_false_iff_ne, ne_eq]
  exact ⟨⟨⟨⟨⟨hdigit, hdot⟩, hcomma⟩, hspace⟩, he⟩, hdash⟩

lemma scanTail_sep (rest : List Char) (hrest : ∀ c t2, rest = c :: t2 → c = ',' ∨ c = ' ') :
    rest.takeWhile isDigitC = [] ∧ rest.dropWhile isDigitC = rest ∧
      splitChar '.' rest = ([], rest) ∧ scanExp rest = ([], rest) := by
  cases rest with
  | nil => exact ⟨rfl, rfl, rfl, rfl⟩
  | cons c2 t2 =>
    obtain ⟨hd, hdot, he, _⟩ := sep_facts (hrest c2 t2 rfl)
    refine ⟨?_, ?_, ?_, ?_⟩
    · simp [List.takeWhile_cons, hd]
    · simp [List.dropWhile_cons, hd]
    · exact splitChar_miss '.' t2 hdot
    · simp [scanExp, he]

lemma scanExp_numeral (ex rest : List Char)
    (hex : ex = [] ∨ ∃ ed, ed ≠ [] ∧ (∀ c ∈ ed, isDigitC c = true) ∧ ex = 'e' :: '-' :: ed)
    (hrest : ∀ c t2, rest = c :: t2 → c = ',' ∨ c = ' ') :
    scanExp (ex ++ rest) = (ex, rest) := by
  obtain ⟨htw0, hdw0, _, hexp0⟩ := scanTail_sep rest hrest
  rcases hex with rfl | ⟨ed, hed, hedd, rfl⟩
  · simpa using hexp0
  · have hedF : ((ed ++ rest).takeWhile isDigitC = []) = False := by
      rw [takeWhile_all_append _ ed _ hedd, htw0, List.append_nil]
      simp [hed]
    have hedF2 : ((ed = [])) = False := by simp [hed]
    have hne : (((['-'] : List Char) = [])) = False := by simp
    simp only [List.cons_append, List.nil_append, scanExp, if_pos rfl, if_true,
      splitChar_hit '-' (ed ++ rest), hne, if_false, hedF, hedF2,
      takeWhile_all_append _ ed _ hedd, dropWhile_all_append _ ed _ hedd,
      htw0, hdw0, List.append_nil]

lemma scanNum_numeral (sgn ip fp ex rest : List Char) (hs : sgn = [] ∨ sgn = ['-'])
    (hip : ip ≠ []) (hipd : ∀ c ∈ ip, isDigitC c = true)
    (hfp : fp = [] ∨ ∃ fd, fd ≠ [] ∧ (∀ c ∈ fd, isDigitC c = true) ∧ fp = '.' :: fd)
    (hex : ex = [] ∨ ∃ ed, ed ≠ [] ∧ (∀ c ∈ ed, isDigitC c = true) ∧ ex = 'e' :: '-' :: ed)
    (hrest : ∀ c t2, rest = c :: t2 → c = ',' ∨ c = ' ') :
    scanNum (sgn ++ ip ++ fp ++ ex ++ rest) = (sgn ++ ip ++ fp ++ ex, rest) := by
  obtain ⟨c, t, hct⟩ : ∃ c t, ip = c :: t := by
    cases hip2 : ip with
    | nil => exact absurd hip2 hip
    | cons c t => exact ⟨c, t, rfl⟩
  obtain ⟨htw0, hdw0, hdot0, hexp0⟩ := scanTail_sep rest hrest
  have hdot2 : isDigitC '.' = false := by decide
  have hexscan : scanExp (ex ++ rest) = (ex, rest) := scanExp_numeral ex rest hex hrest
  have hexta : (ex ++ rest).takeWhile isDigitC = [] := by
    rcases hex with rfl | ⟨ed, _, _, rfl⟩
    · simpa using htw0
    · simp [List.takeWhile_cons, (by decide : isDigitC 'e' = false)]
  have hextd : (ex ++ rest).dropWhile isDigitC = ex ++ rest := by
    rcases hex with rfl | ⟨ed, _, _, rfl⟩
    · simpa using hdw0
    · simp [List.dropWhile_cons, (by decide : isDigitC 'e' = false)]
  have hexdot : splitChar '.' (ex ++ rest) = ([], ex ++ rest) := by
    rcases hex with rfl | ⟨ed, _, _, rfl⟩
    · simpa using hdot0
    · exact splitChar_miss '.' _ (by decide)
  have hmiss : ∀ X : List Char, splitChar '-' (ip ++ X) = ([], ip ++ X) := by
    intro X
    rw [hct]
    exact splitChar_miss '-' _ (isDigitC_ne_dash (hipd c (by rw [hct]; simp)))
  rcases hfp with rfl | ⟨fd, hfd, hfdd, rfl⟩
  · rcases hs with rfl | rfl
    · simp only [List.nil_append, List.append_nil, List.append_assoc, scanNum,
        hmiss (ex ++ rest),
        takeWhile_all_append _ ip _ hipd, dropWhile_all_append _ ip _ hipd,
        hexta, hextd, hexdot, hexscan]
    · simp only [List.append_nil, List.cons_append, List.nil_append, List.append_assoc,
        scanNum, splitChar_hit '-' (ip ++ (ex ++ rest)),
        takeWhile_all_append _ ip _ hipd, dropWhile_all_append _ ip _ hipd,
        hexta, hextd, hexdot, hexscan]
  · rcases hs with rfl | rfl
    · simp only [List.nil_append, List.append_assoc, List.cons_append, scanNum,
        hmiss ('.' :: (fd ++ (ex ++ rest))),
        takeWhile_all_append _ ip _ hipd, dropWhile_all_append _ ip _ hipd]
      simp only [List.takeWhile_cons, List.dropWhile_cons, hdot2, Bool.false_eq_true,
        if_false]
      simp only [show splitChar '.' ('.' :: (fd ++ (ex ++ rest))) =
        (['.'], fd ++ (ex ++ rest)) from splitChar_hit '.' _]
      simp only [takeWhile_all_append _ fd _ hfdd, dropWhile_all_append _ fd _ hfdd,
        hexta, hextd, hexscan, List.append_nil]
      simp
    · simp only [List.append_assoc, List.cons_append, List.nil_append, scanNum,
        splitChar_hit '-' (ip ++ ('.' :: (fd ++ (ex ++ rest)))),
        takeWhile_all_append _ ip _ hipd, dropWhile_all_append _ ip _ hipd]
      simp only [List.takeWhile_cons, List.dropWhile_cons, hdot2, Bool.false_eq_true,
        if_false]
      simp only [show splitChar '.' ('.' :: (fd ++ (ex ++ rest))) =
        (['.'], fd ++ (ex ++ rest)) from splitChar_hit '.' _]
      simp only [takeWhile_all_append _ fd _ hfdd, dropWhile_all_append _ fd _ hfdd,
        hexta, hextd, hexscan, List.append_nil]
      simp

lemma scanNum_sep (c : Char) (t : List Char) (hc : c = ',' ∨ c = ' ') :
    scanNum (c :: t) = ([], c :: t) := by
  obtain ⟨hd, hdot, he, hdash⟩ := sep_facts hc
  simp only [scanNum, splitChar_miss '-' t hdash, List.takeWhile_cons,
    List.dropWhile_cons, hd, Bool.false_eq_true, if_false,
    splitChar_miss '.' t hdot]
  simp only [show scanExp (c :: t) = ([], c :: t) by simp [scanExp, he]]
  simp

lemma scanParamsGo_seps : ∀ (tail : List Char) (fuel : ℕ),
    (∀ c ∈ tail, c = ',' ∨ c = ' ') → scanParamsGo fuel tail = [] := by
  intro tail
  induction tail with
  | nil => intro fuel _; cases fuel <;> rfl
  | cons c t ih =>
    intro fuel h
    cases fuel with
    | zero => rfl
    | succ f =>
      simp only [scanParamsGo, scanNum_sep c t (h c (by simp)), if_pos rfl]
      exact ih f (fun c2 h2 => h c2 (by simp [h2]))

lemma scanParamsGo_join : ∀ (ns : List (List Char)) (tail : List Char) (fuel : ℕ),
    (∀ n2 ∈ ns, IsNumeral n2) → (∀ c ∈ tail, c = ',' ∨ c = ' ') →
    (joinSep ',' ns ++ tail).length < fuel →
    scanParamsGo fuel (joinSep ',' ns ++ tail) = ns := by
  intro ns
  induction ns with
  | nil =>
    intro tail fuel _ hsep _
    exact scanParamsGo_seps tail fuel hsep
  | cons n2 rest ih =>
    intro tail fuel hnum hsep hlen
    obtain ⟨sgn, ip, fp, ex, hs, hip, hipd, hfp, hex, hneq⟩ := hnum n2 (by simp)
    have hn2ne : n2 ≠ [] := numeral_ne_nil (hnum n2 (by simp))
    obtain ⟨c0, t0, hct0⟩ : ∃ c0 t0, n2 = c0 :: t0 := by
      cases hn2 : n2 with
      | nil => exact absurd hn2 hn2ne
      | cons c0 t0 => exact ⟨c0, t0, rfl⟩
    cases rest with
    | nil =>
      have hscan : scanNum (n2 ++ tail) = (n2, tail) := by
        rw [hneq]
        exact scanNum_numeral sgn ip fp ex tail hs hip hipd hfp hex
          (fun c t2 ht => hsep c (by rw [ht]; simp))
      have hj : joinSep ',' [n2] = n2 := rfl
      rw [hj] at hlen ⊢
      cases fuel with
      | zero => omega
      | succ f =>
        rw [hct0] at hscan ⊢
        simp only [List.cons_append] at hscan ⊢
        simp only [scanParamsGo, hscan]
        rw [if_neg (by simp)]
        rw [scanParamsGo_seps tail f hsep]
    | cons m rest2 =>
      have hj : joinSep ',' (n2 :: m :: rest2) = n2 ++ ',' :: joinSep ',' (m :: rest2) := rfl
      rw [hj] at hlen ⊢
      have hscan : scanNum (n2 ++ (',' :: (joinSep ',' (m :: rest2) ++ tail))) =
          (n2, ',' :: (joinSep ',' (m :: rest2) ++ tail)) := by
        rw [hneq]
        exact scanNum_numeral sgn ip fp ex (',' :: (joinSep ',' (m :: rest2) ++ tail)) hs hip
          hipd hfp hex (fun c t2 ht => by
            injection ht with h1 _
            exact Or.inl h1.symm)
      cases fuel with
      | zero => simp at hlen
      | succ f =>
        rw [hct0] at hscan ⊢
        simp only [List.cons_append, List.append_assoc] at hscan hlen ⊢
        simp only [scanParamsGo, hscan]
        rw [if_neg (by simp)]
        cases f with
        | zero =>
          exfalso
          simp [List.length_append] at hlen
        | succ f2 =>
          simp only [scanParamsGo, scanNum_sep ',' _ (Or.inl rfl), if_pos rfl]
          rw [ih tail f2 (fun x hx => hnum x (by simp [hx])) hsep (by
            simp [List.length_append, hct0] at hlen ⊢
            omega)]
          simp

lemma parseParams_join (ns : List (List Char)) (tail : List Char)
    (hnum : ∀ n2 ∈ ns, IsNumeral n2) (hsep : ∀ c ∈ tail, c = ',' ∨ c = ' ') :
    parseParams (joinSep ',' ns ++ tail) = ns.map parseFloatJs := by
  unfold parseParams
  rw [scanParamsGo_join ns tail _ hnum hsep (Nat.lt_succ_self _)]

lemma joinSep_comma_params (ls : List (List Char))
    (h : ∀ l2 ∈ ls, ∀ c ∈ l2, isParamChar c = true) :
    ∀ c ∈ joinSep ',' ls, isParamChar c = true := by
  induction ls with
  | nil => simp [joinSep]
  | cons x xs ih =>
    cases xs with
    | nil =>
      intro c hc
      exact h x (by simp) c (by simpa [joinSep] using hc)
    | cons y t =>
      intro c hc
      rw [show joinSep ',' (x :: y :: t) = x ++ ',' :: joinSep ',' (y :: t) from rfl] at hc
      rcases List.mem_append.mp hc with h1 | h2
      · exact h x (by simp) c h1
      · rcases List.mem_cons.mp h2 with rfl | h3
        · decide
        · exact ih (fun l2 hl2 => h l2 (List.mem_cons_of_mem x hl2)) c h3

lemma tokenizeGo_cons_cmd (f : ℕ) (c : Char) (rest : List Char) (h : isCommandChar c = true) :
    tokenizeGo (f + 1) (c :: rest) =
      (c, rest.takeWhile isParamChar) :: tokenizeGo f (rest.dropWhile isParamChar) := by
  simp [tokenizeGo, h]

lemma tokparse_serialize : ∀ (cmds : List (Char × List ℚ)) (fuel : ℕ),
    (∀ p ∈ cmds, isCommandChar p.1 = true) →
    (∀ p ∈ cmds, ∀ q2 ∈ p.2, 10 ^ 63 % q2.den = 0) →
    (∀ p ∈ cmds, ∀ q2 ∈ p.2, |q2| < 10 ^ 21) →
    (serializeShape cmds).length < fuel →
    (tokenizeGo fuel (serializeShape cmds)).map (fun t => (t.1, parseParams t.2)) =
      cmds.map (fun p => (p.1, p.2.map some)) := by
  intro cmds
  induction cmds with
  | nil =>
    intro fuel _ _ _ _
    cases fuel <;> rfl
  | cons p rest ih =>
    intro fuel hcmd hden hmag hlen
    have hp : isCommandChar p.1 = true := hcmd p (by simp)
    have hpnum : ∀ x ∈ p.2.map qChars, IsNumeral x := by
      intro x hx
      obtain ⟨q2, hq2, rfl⟩ := List.mem_map.mp hx
      exact qChars_numeral q2 (hden p (by simp) q2 hq2) (hmag p (by simp) q2 hq2)
    have hppar : ∀ c ∈ joinSep ',' (p.2.map qChars), isParamChar c = true :=
      joinSep_comma_params _ (fun l2 hl2 c hc => isNumeral_params (hpnum l2 hl2) c hc)
    have hpv : (p.2.map qChars).map parseFloatJs = p.2.map some := by
      rw [List.map_map]
      exact List.map_congr_left (fun a ha =>
        parseFloatJs_qChars a (hden p (by simp) a ha) (hmag p (by simp) a ha))
    cases rest with
    | nil =>
      rw [show serializeShape [p] = p.1 :: joinSep ',' (p.2.map qChars) from rfl] at hlen ⊢
      cases fuel with
      | zero => omega
      | succ f =>
        rw [tokenizeGo_cons_cmd f p.1 _ hp]
        rw [takeWhile_all _ _ hppar, dropWhile_all _ _ hppar]
        rw [show tokenizeGo f [] = [] by cases f <;> rfl]
        simp only [List.map_cons, List.map_nil]
        have hpp := parseParams_join (p.2.map qChars) [] hpnum (by simp)
        rw [List.append_nil] at hpp
        rw [hpp, hpv]
    | cons r rest2 =>
      rw [show serializeShape (p :: r :: rest2) =
        (p.1 :: joinSep ',' (p.2.map qChars)) ++ ' ' :: serializeShape (r :: rest2) from rfl]
        at hlen ⊢
      obtain ⟨S2, hS⟩ : ∃ S2, serializeShape (r :: rest2) = r.1 :: S2 := by
        cases rest2 <;> exact ⟨_, rfl⟩
      have hr : isCommandChar r.1 = true := hcmd r (by simp)
      have hrnp : isParamChar r.1 = false := commandChar_not_param hr
      have hsp : isParamChar ' ' = true := by decide
      cases fuel with
      | zero => omega
      | succ f =>
        simp only [List.cons_append]
        rw [tokenizeGo_cons_cmd f p.1 _ hp]
        rw [takeWhile_all_append _ _ _ hppar, dropWhile_all_append _ _ _ hppar]
        rw [hS]
        rw [show (' ' :: (r.1 :: S2)).takeWhile isParamChar =
          ' ' :: ((r.1 :: S2).takeWhile isParamChar) by simp [List.takeWhile_cons, hsp]]
        rw [show ((r.1 :: S2).takeWhile isParamChar) = [] by
          simp [List.takeWhile_cons, hrnp]]
        rw [show (' ' :: (r.1 :: S2)).dropWhile isParamChar =
          (r.1 :: S2).dropWhile isParamChar by simp [List.dropWhile_cons, hsp]]
        rw [show ((r.1 :: S2).dropWhile isParamChar) = r.1 :: S2 by
          simp [List.dropWhile_cons, hrnp]]
        rw [← hS]
        simp only [List.map_cons]
        congr 1
        · rw [parseParams_join (p.2.map qChars) [' '] hpnum (by
            intro c hc
            simp at hc
            subst hc
            exact Or.inr rfl), hpv]
        · exact ih f (fun x hx => hcmd x (List.mem_cons_of_mem p hx))
            (fun x hx => hden x (List.mem_cons_of_mem p hx))
            (fun x hx => hmag x (List.mem_cons_of_mem p hx))
            (by
              simp only [List.length_append, List.length_cons] at hlen ⊢
              omega)

/-- Counterexample to claim C8 as stated: the round trip is not the identity
on every successfully serialized shape.  The arc command
`A1,1,10^21,0,0,10,10` serializes its pass-through x-axis-rotation parameter
`10^21` in ECMAScript exponential notation as `1e+21`; the `+` is outside the
tokenizer's parameter class `[0-9., e-]`, so the parameter run is cut short at
`1,1,1e` and re-tokenizing yields `(A, [1, 1, 1])` instead of the serialized
seven-parameter structure. -/
theorem claim_C8_counterexample :
    serializeShape [('A', [1, 1, 10 ^ 21, 0, 0, 10, 10])] =
      ['A', '1', ',', '1', ',', '1', 'e', '+', '2', '1', ',',
       '0', ',', '0', ',', '1', '0', ',', '1', '0'] ∧
    retokenize (serializeShape [('A', [1, 1, 10 ^ 21, 0, 0, 10, 10])]) =
      [('A', [some 1, some 1, some 1])] ∧
    [('A', [some 1, some 1, some 1])] ≠
      [('A', ([1, 1, 10 ^ 21, 0, 0, 10, 10] : List ℚ).map some)] := by
  refine ⟨by with_unfolding_all rfl, by with_unfolding_all rfl, ?_⟩
  with_unfolding_all decide

/-- Claim C8, corrected: serialization followed by re-parsing is the identity
on the command/parameter structure provided every parameter's magnitude is
below `10^21`.  A serialized shape path is the space-join of commands, each a
command letter written directly against its comma-joined parameters;
re-tokenizing with the same grammar recovers exactly the same command letters
and numeric parameter values.  The hypotheses state what holds of every
successfully serialized shape whose parameters are below `10^21` in magnitude:
each command letter comes from the tokenizer's command class, each serialized
number is a decimal fraction (scaled outputs are multiples of `10^-3` and
pass-through parameters are parsed decimal literals), and number-to-string
therefore prints either plain decimal notation or `e-` exponential notation,
both of which the number grammar re-parses exactly.  At magnitude `10^21` and
above printing switches to `e+` exponential notation, whose `+` the tokenizer
cannot scan, and the round trip fails (see the counterexample). -/
theorem claim_C8 (cmds : List (Char × List ℚ))
    (hcmd : ∀ p ∈ cmds, isCommandChar p.1 = true)
    (hden : ∀ p ∈ cmds, ∀ q2 ∈ p.2, 10 ^ 63 % q2.den = 0)
    (hmag : ∀ p ∈ cmds, ∀ q2 ∈ p.2, |q2| < 10 ^ 21) :
    retokenize (serializeShape cmds) = cmds.map fun p => (p.1, p.2.map some) := by
  unfold retokenize tokenizePath
  exact tokparse_serialize cmds _ hcmd hden hmag (Nat.lt_succ_self _)

/-- Witness for C8 at a concrete input: the serialized circle shape
`M12,6 A6,6,0,1,0,12.001,6 Z` re-tokenizes to its own structure, and a
tiny pass-through parameter exercises the exponential branch:
`l0.0000001,1` serializes as `l1e-7,1` and re-tokenizes exactly. -/
theorem claim_C8_witness :
    retokenize (serializeShape
        [('M', [12, 6]), ('A', [6, 6, 0, 1, 0, 12001/1000, 6]), ('Z', []),
         ('l', [1/10^7, 1])]) =
      [('M', [some 12, some 6]),
       ('A', [some 6, some 6, some 0, some 1, some 0, some (12001/1000), some 6]),
       ('Z', []),
       ('l', [some (1/10^7), some 1])] :=
  (claim_C8 [('M', [12, 6]), ('A', [6, 6, 0, 1, 0, 12001/1000, 6]), ('Z', []),
      ('l', [1/10^7, 1])]
    (by with_unfolding_all decide) (by with_unfolding_all decide)
    (by with_unfolding_all decide)).trans
    (by with_unfolding_all rfl)

end Migrator
